import Mathlib

/-!
Verification of the suggestion-to-action pipeline of `note-para-sweep`.

The Python sources under `src/note_para_sweep/` are shallowly embedded here:

* `pathlib.Path` objects are embedded as lists of path components
  (`FPath := List String`), which mirrors `PurePath.parts`; `str(path)`
  is `renderPath` (components joined by `/`), `path.parent` is
  `parentPath` (drop the last component) and `path.name` is `pathName`.
* The filesystem is a pair of association lists: regular files (with
  their byte size, which is all `move_file` inspects) and directories.
* Environment interference that the code guards against (a corrupted
  copy detected by the post-copy size check, a failing `unlink`) is
  injected through an explicit `MoveFault` record; the fault-free
  behaviour is `noFault`.

Every definition is translated from the corresponding Python function,
keeping the order of the checks and the exact branch structure.
-/

namespace NoteParaSweep

/-- Path = list of components, mirroring `pathlib.PurePath.parts`. -/
abbrev FPath := List String

/-- Rendering of `str(path)` for a POSIX path: components joined by `/`.  Written as
a plain recursion (equivalent to `String.intercalate "/"`) so that it
evaluates inside the kernel. -/
def renderPath : FPath → String
  | [] => ""
  | [c] => c
  | c :: rest => c ++ "/" ++ renderPath rest

/-- Model of `path.parent`: drop the final component. -/
def parentPath (p : FPath) : FPath := p.dropLast

/-- Model of `path.name`: the final component (empty for the empty path). -/
def pathName (p : FPath) : String := p.getLastD ""

/-- All non-empty prefixes of a path, shortest first; the chain of
directories `mkdir(parents=True)` ensures to exist (the path itself is
the last element). -/
def ancestorsOf (p : FPath) : List FPath :=
  (List.range p.length).map (fun i => p.take (i + 1))

/-- Python's `pat in s` substring test. -/
def containsSub (s pat : String) : Bool := decide (pat.toList <:+: s.toList)

/-- Filesystem snapshot: regular files (path and byte size) and
directories. -/
structure FS where
  files : List (FPath × Nat)
  dirs : List FPath
deriving DecidableEq, Repr

/-- Model of `path.is_file()`. -/
def FS.isFile (fs : FS) (p : FPath) : Bool := fs.files.any (fun e => e.1 == p)

/-- Model of `path.is_dir()`. -/
def FS.isDir (fs : FS) (p : FPath) : Bool := fs.dirs.any (fun q => q == p)

/-- Model of `path.exists()`. -/
def FS.pathExists (fs : FS) (p : FPath) : Bool := fs.isFile p || fs.isDir p

/-- Size of the regular file at `p` (`path.stat().st_size`). -/
def FS.lookupFile (fs : FS) (p : FPath) : Option Nat :=
  (fs.files.find? (fun e => e.1 == p)).map (fun e => e.2)

/-- Insert a directory if not already present. -/
def insertDir (ds : List FPath) (q : FPath) : List FPath :=
  if q ∈ ds then ds else ds ++ [q]

/-- Model of `path.mkdir(parents=True, exist_ok=True)`: make the whole chain of
ancestors (including `p` itself) exist as directories. -/
def FS.mkdirP (fs : FS) (p : FPath) : FS :=
  { fs with dirs := (ancestorsOf p).foldl insertDir fs.dirs }

/-- Model of `path.unlink()` on a regular file. -/
def FS.removeFile (fs : FS) (p : FPath) : FS :=
  { fs with files := fs.files.filter (fun e => !(e.1 == p)) }

/-- Model of `path.rmdir()`. -/
def FS.rmdir (fs : FS) (p : FPath) : FS :=
  { fs with dirs := fs.dirs.filter (fun q => !(q == p)) }

/-- Model of `path.touch()`: create an empty file unless the path already is a
file. -/
def FS.touch (fs : FS) (p : FPath) : FS :=
  if fs.isFile p then fs else { fs with files := fs.files ++ [(p, 0)] }

/-- Python's `str.strip()`: drop whitespace from both ends.  Written
over the character list so that it evaluates inside the kernel. -/
def strStrip (s : String) : String :=
  ⟨((s.data.dropWhile Char.isWhitespace).reverse.dropWhile Char.isWhitespace).reverse⟩

/-- The `dangerous_patterns` list of `FileOperator._is_safe_path`
(`file_operations.py`, lines 81-90). -/
def dangerousPatterns : List String :=
  ["../", "..\\", "~", "/etc", "/var", "/usr", "/bin", "/sbin"]

/-- Embedding of `FileOperator._is_safe_path` (`file_operations.py`, lines 66-101):
substring-scan the rendered (resolved) path string for the dangerous
patterns, then reject empty or root-only strings.  The embedding takes
the already-resolved path. -/
def isSafePath (p : FPath) : Bool :=
  let pathStr := renderPath p
  if dangerousPatterns.any (fun pat => containsSub pathStr pat) then false
  else if (strStrip pathStr).data.length = 0 || strStrip pathStr = "/" ||
      strStrip pathStr = "\\" then false
  else true

/-- Environment interference injected into a non-dry-run move:
`copiedSize n` is the size that `shutil.copy2` actually wrote for a
source of size `n` (≠ `n` makes the post-copy verification fail), and
`unlinkFails` makes `source.unlink()` raise. -/
structure MoveFault where
  copiedSize : Nat → Nat
  unlinkFails : Bool

/-- The fault-free environment: the copy is exact and the unlink
succeeds. -/
def noFault : MoveFault := ⟨fun n => n, false⟩

/-- Result dictionary of `FileOperator.move_file`. -/
structure MoveResult where
  operation : String
  source : String
  target : String
  success : Bool
  dryRun : Bool
  error : Option String
  message : Option String
deriving DecidableEq, Repr

/-- Embedding of `FileOperator.move_file` (`file_operations.py`, lines 159-244):
safety check, source-exists/is-file checks, target-absent check, then
`target.parent.mkdir(parents=True, exist_ok=True)` (note: this runs
before the dry-run branch), then in non-dry-run mode copy, verify the
copied size, delete the source, rolling the copy back when verification
or the delete fails. -/
def moveFile (dryRun : Bool) (fault : MoveFault) (fs : FS) (source target : FPath) :
    FS × MoveResult :=
  let base : MoveResult :=
    ⟨"move_file", renderPath source, renderPath target, false, dryRun, none, none⟩
  if !(isSafePath source && isSafePath target) then
    (fs, { base with error := some "不安全的文件路径" })
  else if !(fs.pathExists source) then
    (fs, { base with error := some ("源文件不存在: " ++ renderPath source) })
  else if !(fs.isFile source) then
    (fs, { base with error := some ("源路径不是文件: " ++ renderPath source) })
  else if fs.pathExists target then
    (fs, { base with error := some ("目标文件已存在: " ++ renderPath target) })
  else
    let fs1 := fs.mkdirP (parentPath target)
    if !dryRun then
      match fs1.lookupFile source with
      | some n =>
        let written := fault.copiedSize n
        let fs2 : FS := { fs1 with files := fs1.files ++ [(target, written)] }
        if written ≠ n then
          (fs2.removeFile target, { base with error := some "文件复制验证失败" })
        else if fault.unlinkFails then
          (fs2.removeFile target,
            { base with error := some ("删除源文件失败: " ++ renderPath source) })
        else
          (fs2.removeFile source, { base with success := true })
      | none =>
        (fs1, { base with error := some "文件复制验证失败" })
    else
      (fs1, { base with success := true, message := some "试运行模式：未执行实际操作" })

/-- Result dictionary of `FileOperator.create_directory`. -/
structure DirResult where
  operation : String
  path : String
  success : Bool
  dryRun : Bool
  error : Option String
  message : Option String
deriving DecidableEq, Repr

/-- Embedding of `FileOperator.create_directory` (`file_operations.py`, lines
246-285): success without mutation when the path already exists,
otherwise `mkdir(parents=True)` unless in dry-run mode. -/
def createDirectory (dryRun : Bool) (fs : FS) (p : FPath) : FS × DirResult :=
  let base : DirResult := ⟨"create_directory", renderPath p, false, dryRun, none, none⟩
  if fs.pathExists p then
    (fs, { base with success := true, message := some "目录已存在" })
  else if !dryRun then
    (fs.mkdirP p, { base with success := true })
  else
    (fs, { base with success := true, message := some "试运行模式：未执行实际操作" })

/-- Result of a `SuggestionExecutor` dispatch function in `cli.py`; the
detail dictionaries are abstracted to their `success` flags. -/
structure ExecResult where
  success : Bool
  operation : String
  details : List Bool
  error : Option String
deriving DecidableEq, Repr

/-- Embedding of `_execute_create_suggestion` (`cli.py`, lines 1178-1207).  The
Python guard `target_path.suffix == ".md" or "." in target_path.name`
is equivalent to `"." in target_path.name` because a non-empty suffix
requires a dot in the name.  Note that the `mkdir(parents=True)` for a
file target runs before the dry-run test. -/
def executeCreateSuggestion (dryRun : Bool) (fs : FS) (target : FPath) : FS × ExecResult :=
  if containsSub (pathName target) "." then
    let fs1 := fs.mkdirP (parentPath target)
    let fs2 := if !dryRun then fs1.touch target else fs1
    (fs2, ⟨true, "create", [true], none⟩)
  else
    let r := createDirectory dryRun fs target
    (r.1, ⟨r.2.success, "create", [r.2.success], if r.2.success then none else r.2.error⟩)

/-! ### Basic lemmas about directory insertion -/

lemma mem_insertDir_self (ds : List FPath) (q : FPath) : q ∈ insertDir ds q := by
  unfold insertDir
  split
  · assumption
  · simp

lemma mem_insertDir_of_mem {ds : List FPath} {x : FPath} (q : FPath) (h : x ∈ ds) :
    x ∈ insertDir ds q := by
  unfold insertDir
  split
  · exact h
  · exact List.mem_append_left _ h

lemma mem_foldl_insertDir_of_mem_base {x : FPath} :
    ∀ (qs ds : List FPath), x ∈ ds → x ∈ qs.foldl insertDir ds
  | [], _, h => h
  | q :: t, ds, h => mem_foldl_insertDir_of_mem_base t (insertDir ds q) (mem_insertDir_of_mem q h)

lemma mem_foldl_insertDir_of_mem {x : FPath} :
    ∀ (qs ds : List FPath), x ∈ qs → x ∈ qs.foldl insertDir ds := by
  intro qs
  induction qs with
  | nil => intro ds h; cases h
  | cons q t ih =>
    intro ds h
    rcases List.mem_cons.mp h with rfl | hx
    · exact mem_foldl_insertDir_of_mem_base t _ (mem_insertDir_self ds x)
    · exact ih _ hx

lemma foldl_insertDir_eq_append :
    ∀ (qs ds : List FPath), ∃ extra, qs.foldl insertDir ds = ds ++ extra ∧
      ∀ x ∈ extra, x ∈ qs := by
  intro qs
  induction qs with
  | nil => intro ds; exact ⟨[], by simp, by simp⟩
  | cons q t ih =>
    intro ds
    by_cases hq : q ∈ ds
    · obtain ⟨extra, he, hsub⟩ := ih ds
      refine ⟨extra, ?_, fun x hx => List.mem_cons_of_mem _ (hsub x hx)⟩
      simpa [List.foldl_cons, insertDir, hq] using he
    · obtain ⟨extra, he, hsub⟩ := ih (ds ++ [q])
      refine ⟨q :: extra, ?_, ?_⟩
      · simpa [List.foldl_cons, insertDir, hq] using he
      · intro x hx
        rcases List.mem_cons.mp hx with rfl | hx
        · exact List.mem_cons_self _ _
        · exact List.mem_cons_of_mem _ (hsub x hx)

lemma foldl_insertDir_eq_self :
    ∀ (qs ds : List FPath), (∀ q ∈ qs, q ∈ ds) → qs.foldl insertDir ds = ds := by
  intro qs
  induction qs with
  | nil => intro ds _; rfl
  | cons q t ih =>
    intro ds h
    have hq : q ∈ ds := h q (List.mem_cons_self _ _)
    have : insertDir ds q = ds := by simp [insertDir, hq]
    rw [List.foldl_cons, this]
    exact ih ds fun x hx => h x (List.mem_cons_of_mem _ hx)

lemma mkdirP_eq_self {fs : FS} {p : FPath} (h : ∀ q ∈ ancestorsOf p, q ∈ fs.dirs) :
    fs.mkdirP p = fs := by
  unfold FS.mkdirP
  rw [foldl_insertDir_eq_self _ _ h]

lemma self_mem_ancestorsOf {p : FPath} (h : p ≠ []) : p ∈ ancestorsOf p := by
  unfold ancestorsOf
  have hlen : 0 < p.length := List.length_pos.mpr h
  refine List.mem_map.mpr ⟨p.length - 1, ?_, ?_⟩
  · exact List.mem_range.mpr (by omega)
  · rw [Nat.sub_add_cancel hlen, List.take_length]

lemma isDir_mkdirP_self (fs : FS) {p : FPath} (h : p ≠ []) :
    (fs.mkdirP p).isDir p = true := by
  have hmem : p ∈ (ancestorsOf p).foldl insertDir fs.dirs :=
    mem_foldl_insertDir_of_mem _ _ (self_mem_ancestorsOf h)
  simp only [FS.mkdirP, FS.isDir, List.any_eq_true]
  exact ⟨p, hmem, by simp⟩

lemma isFile_eq_true_iff_lookup {fs : FS} {p : FPath} :
    fs.isFile p = true ↔ (fs.lookupFile p).isSome := by
  unfold FS.isFile FS.lookupFile
  cases h : fs.files.find? (fun e => e.1 == p) with
  | none =>
    have hnone : ∀ e ∈ fs.files, ¬ (e.1 == p) = true := by
      intro e he hbeq
      exact List.find?_eq_none.mp h e he hbeq
    simp only [List.any_eq_true, h, Option.map_none', Option.isSome_none]
    constructor
    · rintro ⟨e, he, hbeq⟩
      exact absurd hbeq (hnone e he)
    · intro hc
      cases hc
  | some e =>
    have hfind := List.find?_some h
    simp only [List.any_eq_true, h, Option.map_some', Option.isSome_some]
    constructor
    · intro _
      trivial
    · intro _
      exact ⟨e, List.mem_of_find?_eq_some h, by simpa using hfind⟩

lemma isFile_of_lookup {fs : FS} {p : FPath} {n : Nat} (h : fs.lookupFile p = some n) :
    fs.isFile p = true :=
  isFile_eq_true_iff_lookup.mpr (by simp [h])

lemma isFile_false_of_pathExists_false {fs : FS} {p : FPath} (h : fs.pathExists p = false) :
    fs.isFile p = false := by
  simp only [FS.pathExists, Bool.or_eq_false_iff] at h
  exact h.1

lemma removeFile_append_self {fs : FS} {tgt : FPath} {w : Nat} (h : fs.isFile tgt = false) :
    FS.removeFile { fs with files := fs.files ++ [(tgt, w)] } tgt = fs := by
  have hall : ∀ e ∈ fs.files, (!(e.1 == tgt)) = true := by
    intro e he
    by_contra hbad
    have hbeq : (e.1 == tgt) = true := by
      cases hb : (e.1 == tgt) with
      | false => exact absurd (by simp [hb]) hbad
      | true => rfl
    have : fs.isFile tgt = true := by
      simp only [FS.isFile, List.any_eq_true]
      exact ⟨e, he, hbeq⟩
    rw [this] at h
    cases h
  unfold FS.removeFile
  rw [List.filter_append, List.filter_eq_self.mpr hall]
  simp

/-! ### Claim C7 -/

/-- C7: `create_directory` is idempotent — for every path and mode, the
first call reports success, and a second call on the resulting
filesystem reports success with a `None` error and performs no
filesystem mutation. -/
theorem createDirectory_idempotent (dryRun : Bool) (fs : FS) (p : FPath) :
    (createDirectory dryRun fs p).2.success = true ∧
    (createDirectory dryRun (createDirectory dryRun fs p).1 p).2.success = true ∧
    (createDirectory dryRun (createDirectory dryRun fs p).1 p).2.error = none ∧
    (createDirectory dryRun (createDirectory dryRun fs p).1 p).1 =
      (createDirectory dryRun fs p).1 := by
  by_cases hex : fs.pathExists p = true
  · simp [createDirectory, hex]
  · have hex' : fs.pathExists p = false := by
      cases h : fs.pathExists p with
      | false => rfl
      | true => exact absurd h hex
    cases dryRun with
    | true => simp [createDirectory, hex']
    | false =>
      by_cases hp : p = []
      · subst hp
        have hmk : fs.mkdirP [] = fs := mkdirP_eq_self (by simp [ancestorsOf])
        simp [createDirectory, hex', hmk]
      · have hdir : (fs.mkdirP p).isDir p = true := isDir_mkdirP_self fs hp
        have hex2 : (fs.mkdirP p).pathExists p = true := by
          simp [FS.pathExists, hdir]
        simp [createDirectory, hex', hex2]

/-! ### Claim C10 -/

/-- C10: the path-safety gate scans the resolved path string for the
dangerous substrings; every `move_file` call in which either path's
resolved string contains one of them returns a failure result with a
non-null error and performs no filesystem mutation. -/
theorem moveFile_rejects_dangerous_substring (dryRun : Bool) (fault : MoveFault) (fs : FS)
    (source target : FPath)
    (h : dangerousPatterns.any (fun pat => containsSub (renderPath source) pat) = true ∨
         dangerousPatterns.any (fun pat => containsSub (renderPath target) pat) = true) :
    (moveFile dryRun fault fs source target).1 = fs ∧
    (moveFile dryRun fault fs source target).2.success = false ∧
    (moveFile dryRun fault fs source target).2.error ≠ none := by
  have hsafe : (isSafePath source && isSafePath target) = false := by
    rcases h with h | h
    · have hs : isSafePath source = false := by
        unfold isSafePath
        simp [h]
      simp [hs]
    · have hs : isSafePath target = false := by
        unfold isSafePath
        simp [h]
      simp [hs]
  unfold moveFile
  rw [hsafe]
  simp

def c10fs : FS := ⟨[(["home", "user", "vault~notes", "0. Inbox", "a.md"], 4)], [["home"]]⟩

def c10source : FPath := ["home", "user", "vault~notes", "0. Inbox", "a.md"]

def c10target : FPath := ["home", "user", "vault~notes", "1. Projects", "a.md"]

/-- Witness for C10: a vault path containing a tilde character as part
of an ordinary directory name is rejected without mutation. -/
theorem moveFile_rejects_dangerous_substring_witness :
    (dangerousPatterns.any (fun pat => containsSub (renderPath c10source) pat) = true ∨
      dangerousPatterns.any (fun pat => containsSub (renderPath c10target) pat) = true) ∧
    ((moveFile false noFault c10fs c10source c10target).1 = c10fs ∧
      (moveFile false noFault c10fs c10source c10target).2.success = false ∧
      (moveFile false noFault c10fs c10source c10target).2.error ≠ none) :=
  ⟨Or.inl (by decide),
    moveFile_rejects_dangerous_substring false noFault c10fs c10source c10target
      (Or.inl (by decide))⟩

/-! ### Claim C1 (code bug) -/

def c1fs : FS := ⟨[(["vault", "0. Inbox", "note.md"], 3)], [["vault"], ["vault", "0. Inbox"]]⟩

def c1source : FPath := ["vault", "0. Inbox", "note.md"]

def c1target : FPath := ["vault", "3. Resources", "Topic", "note.md"]

def c1createTarget : FPath := ["vault", "2. Areas", "学习管理", "计划.md"]

/-- C1 (failing-input evaluation): in dry-run mode `move_file` and the
create-suggestion executor both report success with the dry-run flag
set, yet they mutate the filesystem — `target.parent.mkdir(parents=True,
exist_ok=True)` runs before the dry-run branch, so the target's parent
directory chain is created on disk. -/
theorem dryRun_moveFile_mutates_filesystem :
    (moveFile true noFault c1fs c1source c1target).2.success = true ∧
    (moveFile true noFault c1fs c1source c1target).2.dryRun = true ∧
    c1fs.isDir ["vault", "3. Resources", "Topic"] = false ∧
    (moveFile true noFault c1fs c1source c1target).1.isDir
      ["vault", "3. Resources", "Topic"] = true ∧
    (moveFile true noFault c1fs c1source c1target).1 ≠ c1fs ∧
    (executeCreateSuggestion true c1fs c1createTarget).2.success = true ∧
    (executeCreateSuggestion true c1fs c1createTarget).1 ≠ c1fs := by
  decide

/-! ### Claim C2 -/

/-- C2: in a non-dry-run `move_file` where the source file and the
target's parent directory chain exist and either the post-copy size
verification or the deletion of the source fails, the call returns a
failure result, the partially written target is rolled back, and the
filesystem is left exactly in its pre-call state (the source keeps its
original content and no target file remains). -/
theorem moveFile_rollback_restores (fs : FS) (source target : FPath) (fault : MoveFault)
    (n : Nat)
    (hs : isSafePath source = true) (ht : isSafePath target = true)
    (hsrc : fs.lookupFile source = some n)
    (htgt : fs.pathExists target = false)
    (hparent : ∀ q ∈ ancestorsOf (parentPath target), q ∈ fs.dirs)
    (hfail : fault.copiedSize n ≠ n ∨ (fault.copiedSize n = n ∧ fault.unlinkFails = true)) :
    (moveFile false fault fs source target).2.success = false ∧
    (moveFile false fault fs source target).2.error ≠ none ∧
    (moveFile false fault fs source target).1 = fs ∧
    (moveFile false fault fs source target).1.lookupFile source = some n ∧
    (moveFile false fault fs source target).1.isFile target = false := by
  have hfile : fs.isFile source = true := isFile_of_lookup hsrc
  have hex : fs.pathExists source = true := by simp [FS.pathExists, hfile]
  have htfile : fs.isFile target = false := isFile_false_of_pathExists_false htgt
  have hmk : fs.mkdirP (parentPath target) = fs := mkdirP_eq_self hparent
  have hroll :
      FS.removeFile { fs with files := fs.files ++ [(target, fault.copiedSize n)] } target
        = fs := removeFile_append_self htfile
  unfold moveFile
  rw [hs, ht]
  simp only [Bool.and_self, Bool.not_true, Bool.false_eq_true, if_false, hex, htgt,
    hfile, Bool.not_false, if_true, hmk, hsrc, if_false]
  rcases hfail with hne | ⟨heq, hul⟩
  · simp [hne, hroll, hsrc, htfile]
  · rw [heq] at hroll
    simp [heq, hul, hroll, hsrc, htfile]

def c2fs : FS :=
  ⟨[(["vault", "0. Inbox", "a.md"], 5)],
    [["vault"], ["vault", "0. Inbox"], ["vault", "1. Projects"]]⟩

def c2source : FPath := ["vault", "0. Inbox", "a.md"]

def c2target : FPath := ["vault", "1. Projects", "a.md"]

def c2fault : MoveFault := ⟨fun n => n + 1, false⟩

/-- Witness for C2: a concrete move whose copy writes a wrong size is
rolled back and leaves the filesystem untouched. -/
theorem moveFile_rollback_restores_witness :
    (c2fs.lookupFile c2source = some 5 ∧ c2fault.copiedSize 5 ≠ 5) ∧
    ((moveFile false c2fault c2fs c2source c2target).2.success = false ∧
      (moveFile false c2fault c2fs c2source c2target).2.error ≠ none ∧
      (moveFile false c2fault c2fs c2source c2target).1 = c2fs ∧
      (moveFile false c2fault c2fs c2source c2target).1.lookupFile c2source = some 5 ∧
      (moveFile false c2fault c2fs c2source c2target).1.isFile c2target = false) :=
  ⟨⟨by decide, by decide⟩,
    moveFile_rollback_restores c2fs c2source c2target c2fault 5 (by decide) (by decide)
      (by decide) (by decide) (by decide) (Or.inl (by decide))⟩

/-! ### The path validator (`cli.py`, `_validate_suggestion_paths`) -/

/-- Python's `s.startswith(pre)`. -/
def strStartsWith (s pre : String) : Bool := decide (pre.data <+: s.data)

/-- The path-bearing fields of a suggestion dictionary, as read by
`_validate_suggestion_paths` via `suggestion.get(...)`. -/
structure Suggestion where
  stype : String
  currentPath : String
  suggestedPath : String
deriving DecidableEq, Repr

/-- List `descriptive_patterns` (`cli.py`, lines 843-854). -/
def descriptivePatterns : List String :=
  ["对应", "合适的", "相关的", "适当的", "正确的", "P/A/R", "子目录", "目录", "位置", "地方"]

/-- List `para_prefixes` (`cli.py`, lines 872-878). -/
def paraRootDirs : List String :=
  ["0. Inbox", "1. Projects", "2. Areas", "3. Resources", "4. Archives"]

/-- The placeholder blocklist (`cli.py`, line 868). -/
def placeholderPaths : List String := ["无", "未知", "待定", "TBD"]

/-- The PARA-root test of rule 5: `any(suggested_path.startswith(prefix)
for prefix in para_prefixes)`. -/
def hasParaRoot (p : String) : Bool := paraRootDirs.any (fun pre => strStartsWith p pre)

/-- Embedding of `_validate_suggestion_paths` (`cli.py`, lines 824-893).  The
filesystem existence test `(vault_path / current_path).exists()` is
abstracted into the function argument `existsAtVault`. -/
def validateSuggestionPaths (existsAtVault : String → Bool) (s : Suggestion) :
    Bool × String :=
  if s.stype == "question" then (true, "")
  else
    match descriptivePatterns.find?
        (fun pat => containsSub s.currentPath pat || containsSub s.suggestedPath pat) with
    | some pat => (false, "路径包含描述性文本而非具体路径: " ++ pat)
    | none =>
      if (strStrip s.currentPath).data.isEmpty &&
          (s.stype == "move" || s.stype == "rename") then
        (false, "移动/重命名操作必须指定具体的当前路径")
      else if (strStrip s.suggestedPath).data.isEmpty then
        (false, "必须指定具体的目标路径")
      else if s.suggestedPath ∈ placeholderPaths then
        (false, "路径格式无效: " ++ s.suggestedPath)
      else if (s.stype == "move" || s.stype == "create") && !hasParaRoot s.suggestedPath then
        (false,
          "目标路径应该基于PARA结构 (0. Inbox, 1. Projects, 2. Areas, 3. Resources, 4. Archives): "
            ++ s.suggestedPath)
      else if !(s.currentPath == "") && (s.stype == "move" || s.stype == "rename") &&
          !existsAtVault s.currentPath then
        (false, "当前路径不存在: " ++ s.currentPath)
      else (true, "")

lemma string_append_ne_empty (s t : String) (h : s.data ≠ []) : s ++ t ≠ "" := by
  cases s with
  | mk a =>
    cases t with
    | mk b =>
      intro he
      have hdata : a ++ b = [] := congrArg String.data he
      rcases List.append_eq_nil.mp hdata with ⟨h1, _⟩
      exact h (by simpa using h1)

/-! ### Claim C4 -/

/-- C4: every `move` or `create` suggestion whose `suggested_path` does
not start with one of the five canonical PARA root prefixes is rejected
with a non-empty reason; in particular a `move` suggestion with
`suggested_path = "random/output.md"` is rejected while
`"1. Projects/x.md"` passes the PARA-root rule. -/
theorem validate_rejects_non_para_root :
    (∀ (ex : String → Bool) (s : Suggestion),
        (s.stype = "move" ∨ s.stype = "create") →
        hasParaRoot s.suggestedPath = false →
        (validateSuggestionPaths ex s).1 = false ∧ (validateSuggestionPaths ex s).2 ≠ "") ∧
    (validateSuggestionPaths (fun _ => true)
        ⟨"move", "0. Inbox/note.md", "random/output.md"⟩).1 = false ∧
    hasParaRoot "random/output.md" = false ∧
    hasParaRoot "1. Projects/x.md" = true ∧
    validateSuggestionPaths (fun _ => true)
        ⟨"move", "0. Inbox/note.md", "1. Projects/x.md"⟩ = (true, "") := by
  refine ⟨?_, by decide, by decide, by decide, by decide⟩
  intro ex s hty hroot
  have hq : (s.stype == "question") = false := by
    rcases hty with h | h <;> rw [h] <;> rfl
  have hmc : (s.stype == "move" || s.stype == "create") = true := by
    rcases hty with h | h <;> rw [h] <;> rfl
  unfold validateSuggestionPaths
  rw [hq]
  simp only [Bool.false_eq_true, if_false]
  cases hfind : descriptivePatterns.find?
      (fun pat => containsSub s.currentPath pat || containsSub s.suggestedPath pat) with
  | some pat =>
    exact ⟨by trivial, string_append_ne_empty _ _ (by decide)⟩
  | none =>
    by_cases hc1 : ((strStrip s.currentPath).data.isEmpty &&
        (s.stype == "move" || s.stype == "rename")) = true
    · simp only [hc1, if_true]
      exact ⟨by trivial, by decide⟩
    · simp only [Bool.not_eq_true] at hc1
      simp only [hc1, Bool.false_eq_true, if_false]
      by_cases hc2 : (strStrip s.suggestedPath).data.isEmpty = true
      · simp only [hc2, if_true]
        exact ⟨by trivial, by decide⟩
      · simp only [Bool.not_eq_true] at hc2
        simp only [hc2, Bool.false_eq_true, if_false]
        by_cases hc3 : s.suggestedPath ∈ placeholderPaths
        · simp only [if_pos hc3]
          exact ⟨by trivial, string_append_ne_empty _ _ (by decide)⟩
        · simp only [if_neg hc3]
          have hcond : ((s.stype == "move" || s.stype == "create") &&
              !hasParaRoot s.suggestedPath) = true := by
            rw [hmc, hroot]
            rfl
          simp only [hcond, if_true]
          exact ⟨by trivial, string_append_ne_empty _ _ (by decide)⟩

def c4move : Suggestion := ⟨"move", "0. Inbox/note.md", "random/output.md"⟩

/-- Witness for C4: applying the universal part of the theorem to the
concrete rejected suggestion. -/
theorem validate_rejects_non_para_root_witness :
    ((c4move.stype = "move" ∨ c4move.stype = "create") ∧
      hasParaRoot c4move.suggestedPath = false) ∧
    ((validateSuggestionPaths (fun _ => true) c4move).1 = false ∧
      (validateSuggestionPaths (fun _ => true) c4move).2 ≠ "") :=
  ⟨⟨Or.inl (by decide), by decide⟩,
    validate_rejects_non_para_root.1 (fun _ => true) c4move (Or.inl (by decide)) (by decide)⟩

/-! ### The LLM retry loop (`llm_client.py`, `LLMClient.chat_completion`) -/

/-- Outcome of one `self.client.chat.completions.create` attempt, as
the `try`/`except` ladder of `chat_completion` distinguishes them: a
successful non-empty reply, `openai.RateLimitError`, `openai.APIError`,
or any other exception (which also covers the empty-response and
empty-content `Exception`s raised inside the `try`). -/
inductive AttemptOutcome
  | ok (content : String)
  | rateLimit (msg : String)
  | apiError (msg : String)
  | other (msg : String)
deriving DecidableEq, Repr

/-- Whether the attempt raised. -/
def AttemptOutcome.isFailure : AttemptOutcome → Bool
  | .ok _ => false
  | _ => true

/-- The `last_error` string the handler stores for a failing attempt. -/
def AttemptOutcome.errorText : AttemptOutcome → String
  | .ok _ => ""
  | .rateLimit m => "请求频率限制: " ++ m
  | .apiError m => "API 错误: " ++ m
  | .other m => "未知错误: " ++ m

/-- Seconds slept after failing attempt number `i` (0-based): rate-limit
errors back off exponentially (`2**attempt`), the other handlers sleep a
fixed 1 second. -/
def AttemptOutcome.sleepAfter : AttemptOutcome → Nat → Nat
  | .rateLimit _, i => 2 ^ i
  | _, _ => 1

/-- Constant `max_retries` (`llm_client.py`, line 139). -/
def maxRetries : Nat := 3

/-- The terminal message raised after the loop exhausts its attempts. -/
def terminalError (provider : String) (lastError : Option String) : String :=
  "LLM API 调用失败 (" ++ provider ++ ") - 已重试 3 次: " ++ lastError.getD "None"

/-- Observable trace of one `chat_completion` call: the returned content
or raised terminal error, the number of attempts executed, and the list
of sleep durations (seconds) in order. -/
structure ChatTrace where
  result : Except String String
  attempts : Nat
  sleeps : List Nat
deriving Repr

/-- The retry loop of `chat_completion` (`llm_client.py`, lines
139-194), indexed by the attempts remaining; a failing attempt sleeps
only when it is not the last one (`attempt < max_retries - 1`). -/
def retryGo (provider : String) (o : Nat → AttemptOutcome) :
    Nat → Nat → List Nat → Option String → ChatTrace
  | 0, attempt, sleeps, lastErr => ⟨.error (terminalError provider lastErr), attempt, sleeps⟩
  | remaining + 1, attempt, sleeps, _ =>
    match o attempt with
    | .ok c => ⟨.ok c, attempt + 1, sleeps⟩
    | f =>
      if remaining > 0 then
        retryGo provider o remaining (attempt + 1)
          (sleeps ++ [f.sleepAfter attempt]) (some f.errorText)
      else
        retryGo provider o remaining (attempt + 1) sleeps (some f.errorText)

/-- Embedding of `LLMClient.chat_completion` in non-mock mode with valid messages,
reduced to its retry behaviour; `o i` is what attempt `i` produces. -/
def chatCompletionRetry (provider : String) (o : Nat → AttemptOutcome) : ChatTrace :=
  retryGo provider o maxRetries 0 [] none

/-- All attempts hit the rate limiter. -/
def allRateLimit : Nat → AttemptOutcome := fun _ => .rateLimit "rate limited"

/-! ### Claim C3 -/

/-- C3 (counterexample): when every attempt hits a rate limit, the call
sleeps 1s and then 2s — there are only two gaps between the 3 attempts,
so the claimed 1s, 2s, 4s backoff schedule never occurs. -/
theorem chatCompletion_sleeps_never_4s :
    (chatCompletionRetry "openai" allRateLimit).sleeps = [1, 2] ∧
    (chatCompletionRetry "openai" allRateLimit).sleeps ≠ [1, 2, 4] ∧
    4 ∉ (chatCompletionRetry "openai" allRateLimit).sleeps := by
  refine ⟨rfl, ?_, ?_⟩
  · have h : (chatCompletionRetry "openai" allRateLimit).sleeps = [1, 2] := rfl
    rw [h]
    decide
  · have h : (chatCompletionRetry "openai" allRateLimit).sleeps = [1, 2] := rfl
    rw [h]
    decide

/-- C3 (amended): a `chat_completion` call whose every attempt fails
performs exactly 3 attempts and then raises a terminal error; between
attempts it sleeps `2^attempt` seconds after a rate-limit failure (1s,
then 2s) and a fixed 1s after other transient failures — a 4s sleep
never occurs because only two gaps exist between the 3 attempts. -/
theorem chatCompletion_retries_exhaust (provider : String) (o : Nat → AttemptOutcome)
    (h : ∀ i, (o i).isFailure = true) :
    (chatCompletionRetry provider o).result =
      .error (terminalError provider (some (o 2).errorText)) ∧
    (chatCompletionRetry provider o).attempts = 3 ∧
    (chatCompletionRetry provider o).sleeps =
      [(o 0).sleepAfter 0, (o 1).sleepAfter 1] := by
  have h0 := h 0
  have h1 := h 1
  have h2 := h 2
  unfold chatCompletionRetry maxRetries
  cases ho0 : o 0 with
  | ok c => rw [ho0] at h0; cases h0
  | rateLimit m =>
    cases ho1 : o 1 with
    | ok c => rw [ho1] at h1; cases h1
    | rateLimit m1 =>
      cases ho2 : o 2 with
      | ok c => rw [ho2] at h2; cases h2
      | rateLimit m2 => simp [retryGo, ho0, ho1, ho2, AttemptOutcome.sleepAfter]
      | apiError m2 => simp [retryGo, ho0, ho1, ho2, AttemptOutcome.sleepAfter]
      | other m2 => simp [retryGo, ho0, ho1, ho2, AttemptOutcome.sleepAfter]
    | apiError m1 =>
      cases ho2 : o 2 with
      | ok c => rw [ho2] at h2; cases h2
      | rateLimit m2 => simp [retryGo, ho0, ho1, ho2, AttemptOutcome.sleepAfter]
      | apiError m2 => simp [retryGo, ho0, ho1, ho2, AttemptOutcome.sleepAfter]
      | other m2 => simp [retryGo, ho0, ho1, ho2, AttemptOutcome.sleepAfter]
    | other m1 =>
      cases ho2 : o 2 with
      | ok c => rw [ho2] at h2; cases h2
      | rateLimit m2 => simp [retryGo, ho0, ho1, ho2, AttemptOutcome.sleepAfter]
      | apiError m2 => simp [retryGo, ho0, ho1, ho2, AttemptOutcome.sleepAfter]
      | other m2 => simp [retryGo, ho0, ho1, ho2, AttemptOutcome.sleepAfter]
  | apiError m =>
    cases ho1 : o 1 with
    | ok c => rw [ho1] at h1; cases h1
    | rateLimit m1 =>
      cases ho2 : o 2 with
      | ok c => rw [ho2] at h2; cases h2
      | rateLimit m2 => simp [retryGo, ho0, ho1, ho2, AttemptOutcome.sleepAfter]
      | apiError m2 => simp [retryGo, ho0, ho1, ho2, AttemptOutcome.sleepAfter]
      | other m2 => simp [retryGo, ho0, ho1, ho2, AttemptOutcome.sleepAfter]
    | apiError m1 =>
      cases ho2 : o 2 with
      | ok c => rw [ho2] at h2; cases h2
      | rateLimit m2 => simp [retryGo, ho0, ho1, ho2, AttemptOutcome.sleepAfter]
      | apiError m2 => simp [retryGo, ho0, ho1, ho2, AttemptOutcome.sleepAfter]
      | other m2 => simp [retryGo, ho0, ho1, ho2, AttemptOutcome.sleepAfter]
    | other m1 =>
      cases ho2 : o 2 with
      | ok c => rw [ho2] at h2; cases h2
      | rateLimit m2 => simp [retryGo, ho0, ho1, ho2, AttemptOutcome.sleepAfter]
      | apiError m2 => simp [retryGo, ho0, ho1, ho2, AttemptOutcome.sleepAfter]
      | other m2 => simp [retryGo, ho0, ho1, ho2, AttemptOutcome.sleepAfter]
  | other m =>
    cases ho1 : o 1 with
    | ok c => rw [ho1] at h1; cases h1
    | rateLimit m1 =>
      cases ho2 : o 2 with
      | ok c => rw [ho2] at h2; cases h2
      | rateLimit m2 => simp [retryGo, ho0, ho1, ho2, AttemptOutcome.sleepAfter]
      | apiError m2 => simp [retryGo, ho0, ho1, ho2, AttemptOutcome.sleepAfter]
      | other m2 => simp [retryGo, ho0, ho1, ho2, AttemptOutcome.sleepAfter]
    | apiError m1 =>
      cases ho2 : o 2 with
      | ok c => rw [ho2] at h2; cases h2
      | rateLimit m2 => simp [retryGo, ho0, ho1, ho2, AttemptOutcome.sleepAfter]
      | apiError m2 => simp [retryGo, ho0, ho1, ho2, AttemptOutcome.sleepAfter]
      | other m2 => simp [retryGo, ho0, ho1, ho2, AttemptOutcome.sleepAfter]
    | other m1 =>
      cases ho2 : o 2 with
      | ok c => rw [ho2] at h2; cases h2
      | rateLimit m2 => simp [retryGo, ho0, ho1, ho2, AttemptOutcome.sleepAfter]
      | apiError m2 => simp [retryGo, ho0, ho1, ho2, AttemptOutcome.sleepAfter]
      | other m2 => simp [retryGo, ho0, ho1, ho2, AttemptOutcome.sleepAfter]

/-- Witness for the amended C3 theorem at the all-rate-limit input. -/
theorem chatCompletion_retries_exhaust_witness :
    (∀ i, (allRateLimit i).isFailure = true) ∧
    ((chatCompletionRetry "openai" allRateLimit).result =
        .error (terminalError "openai" (some (allRateLimit 2).errorText)) ∧
      (chatCompletionRetry "openai" allRateLimit).attempts = 3 ∧
      (chatCompletionRetry "openai" allRateLimit).sleeps =
        [(allRateLimit 0).sleepAfter 0, (allRateLimit 1).sleepAfter 1]) :=
  ⟨fun _ => rfl, chatCompletion_retries_exhaust "openai" allRateLimit (fun _ => rfl)⟩

/-! ### The conversation engine (`llm_client.py`, lines 527-710, and
`cli.py`, `_interactive_discussion`) -/

/-- A suggestion dictionary, abstracted to an association list of
string keys and values. -/
abbrev Sugg := List (String × String)

/-- Model of `dict.get(key, default)`. -/
def suggGet (s : Sugg) (k d : String) : String :=
  ((s.find? (fun e => e.1 == k)).map (fun e => e.2)).getD d

/-- One transcript message. -/
structure Msg where
  role : String
  content : String
deriving DecidableEq, Repr

/-- The seeded assistant turn of `start_suggestion_conversation`
(`llm_client.py`, lines 539-548). -/
def initialAssistantContent (s : Sugg) : String :=
  "我建议进行以下操作：\n\n类型：" ++ suggGet s "type" "未知" ++
  "\n描述：" ++ suggGet s "description" "无描述" ++
  "\n当前路径：" ++ suggGet s "current_path" "无" ++
  "\n建议路径：" ++ suggGet s "suggested_path" "无" ++
  "\n理由：" ++ suggGet s "reasoning" "无理由" ++
  "\n\n你对这个建议有什么想法或需要调整的地方吗？"

/-- Conversation state owned by `LLMClient`: the transcript and the
live draft (`current_suggestion`, absent before a conversation is
started). -/
structure ConvState where
  history : List Msg
  currentSuggestion : Option Sugg
deriving DecidableEq, Repr

/-- Embedding of `LLMClient.start_suggestion_conversation` (`llm_client.py`, lines
527-553): reset the transcript to the seeded assistant turn and snapshot
the suggestion as the draft. -/
def startSuggestionConversation (s : Sugg) : ConvState :=
  ⟨[⟨"assistant", initialAssistantContent s⟩], some s⟩

/-- The structured fields the code extracts from a successfully parsed
AI reply (`parsed_response.get`, with fallbacks). -/
structure ParsedReply where
  aiMessage : Option String
  adjustedSuggestion : Option Sugg
deriving DecidableEq, Repr

/-- What a `continue_suggestion_conversation` call observes from the
outside world: the chat call returns a raw reply whose JSON parse either
yields a structured object or fails, or the chat call itself raises. -/
inductive AIOutcome
  | reply (parsed : Option ParsedReply) (raw : String)
  | apiFail (msg : String)
deriving DecidableEq, Repr

/-- The result dictionary of `continue_suggestion_conversation`,
abstracted to the fields the claims inspect (absent keys are `none`). -/
structure ContResult where
  success : Bool
  error : Option String
  aiResponse : Option String
  updatedSuggestion : Option Sugg
  historySnapshot : Option (List Msg)
deriving DecidableEq, Repr

/-- Embedding of `LLMClient.continue_suggestion_conversation` (`llm_client.py`,
lines 555-638): the user turn is appended first; a successful parse
appends the assistant turn and replaces the draft; a JSON parse failure
returns a failure result but leaves the draft and the appended user turn
in place; a raised chat call returns only an error. -/
def continueSuggestionConversation (st : ConvState) (userInput : String)
    (out : AIOutcome) : ConvState × ContResult :=
  let st1 : ConvState := { st with history := st.history ++ [⟨"user", userInput⟩] }
  match out with
  | .apiFail m =>
    (st1, ⟨false, some ("对话失败: " ++ m), none, none, none⟩)
  | .reply none raw =>
    (st1, ⟨false, some "AI回复格式错误 (JSON解析失败)",
      some (if raw == "" then "无响应" else raw), st1.currentSuggestion,
      some st1.history⟩)
  | .reply (some pr) raw =>
    let aiMsg := pr.aiMessage.getD raw
    let adjusted := pr.adjustedSuggestion.getD (st1.currentSuggestion.getD [])
    let st2 : ConvState :=
      ⟨st1.history ++ [⟨"assistant", aiMsg⟩], some adjusted⟩
    (st2, ⟨true, none, some aiMsg, some adjusted, some st2.history⟩)

/-- Embedding of `LLMClient.get_final_suggestion` (`llm_client.py`, lines 706-710). -/
def getFinalSuggestion (st : ConvState) : Option Sugg := st.currentSuggestion

/-! ### Claim C9 -/

/-- C9: in a started conversation, a JSON parse failure of the AI reply
yields a failure result, still records the user turn, leaves the current
draft unchanged, and keeps the conversation active — a subsequent call
with a parsable reply succeeds and appends both turns. -/
theorem continueConversation_parse_failure_recoverable (st : ConvState) (s : Sugg)
    (userInput raw : String) (hstarted : st.currentSuggestion = some s) :
    ((continueSuggestionConversation st userInput (.reply none raw)).2.success = false ∧
      (continueSuggestionConversation st userInput (.reply none raw)).2.error ≠ none) ∧
    (continueSuggestionConversation st userInput (.reply none raw)).1.history =
      st.history ++ [⟨"user", userInput⟩] ∧
    (continueSuggestionConversation st userInput (.reply none raw)).1.currentSuggestion =
      some s ∧
    (continueSuggestionConversation st userInput (.reply none raw)).2.updatedSuggestion =
      some s ∧
    (∀ (input2 : String) (pr : ParsedReply) (raw2 : String),
      ((continueSuggestionConversation
          (continueSuggestionConversation st userInput (.reply none raw)).1
          input2 (.reply (some pr) raw2)).2.success = true ∧
        (continueSuggestionConversation
          (continueSuggestionConversation st userInput (.reply none raw)).1
          input2 (.reply (some pr) raw2)).1.history =
          st.history ++ [⟨"user", userInput⟩] ++ [⟨"user", input2⟩] ++
            [⟨"assistant", pr.aiMessage.getD raw2⟩])) := by
  refine ⟨⟨rfl, by simp [continueSuggestionConversation]⟩, rfl, ?_, ?_, ?_⟩
  · simp [continueSuggestionConversation, hstarted]
  · simp [continueSuggestionConversation, hstarted]
  · intro input2 pr raw2
    constructor
    · rfl
    · simp [continueSuggestionConversation]

def c9state : ConvState := startSuggestionConversation [("type", "move")]

/-- Witness for C9 at a concrete started conversation. -/
theorem continueConversation_parse_failure_recoverable_witness :
    (c9state.currentSuggestion = some [("type", "move")]) ∧
    (((continueSuggestionConversation c9state "hello" (.reply none "oops")).2.success = false ∧
        (continueSuggestionConversation c9state "hello" (.reply none "oops")).2.error ≠ none) ∧
      (continueSuggestionConversation c9state "hello" (.reply none "oops")).1.history =
        c9state.history ++ [⟨"user", "hello"⟩] ∧
      (continueSuggestionConversation c9state "hello"
          (.reply none "oops")).1.currentSuggestion = some [("type", "move")] ∧
      (continueSuggestionConversation c9state "hello"
          (.reply none "oops")).2.updatedSuggestion = some [("type", "move")] ∧
      (∀ (input2 : String) (pr : ParsedReply) (raw2 : String),
        ((continueSuggestionConversation
            (continueSuggestionConversation c9state "hello" (.reply none "oops")).1
            input2 (.reply (some pr) raw2)).2.success = true ∧
          (continueSuggestionConversation
            (continueSuggestionConversation c9state "hello" (.reply none "oops")).1
            input2 (.reply (some pr) raw2)).1.history =
            c9state.history ++ [⟨"user", "hello"⟩] ++ [⟨"user", input2⟩] ++
              [⟨"assistant", pr.aiMessage.getD raw2⟩]))) :=
  ⟨rfl, continueConversation_parse_failure_recoverable c9state [("type", "move")]
    "hello" "oops" rfl⟩

/-! ### The interactive discussion loop (`cli.py`, `_interactive_discussion`) -/

/-- One iteration's worth of external input to the loop: the user's
prompt answer (empty, an exit keyword with the confirmation answer, or
a message together with what the AI call produces and the answer to the
satisfaction prompt that is asked from turn 3 on). -/
inductive UserEvent
  | empty
  | exitReq (confirmed : Bool)
  | say (input : String) (out : AIOutcome) (satisfied : Bool)
deriving Repr

/-- How `_interactive_discussion` returns. -/
inductive DiscussionOutcome
  | cancelled
  | finished (final : Option Sugg)
  | needInput
deriving DecidableEq, Repr

/-- Whether the loop ended by offering the final draft. -/
def DiscussionOutcome.isFinished : DiscussionOutcome → Bool
  | .finished _ => true
  | _ => false

/-- Constant `max_conversations` (`cli.py`, line 1310). -/
def maxConversations : Nat := 10

/-- Embedding of `_interactive_discussion`'s while-loop (`cli.py`, lines 1309-1368),
driven by a list of user events; returns the outcome together with the
final `conversation_count`.  Empty input and a declined exit keyword
`continue`; a failed AI call `continue`s without incrementing the
counter; a successful turn increments it and, from turn 3 on, a
satisfied user breaks out; when the counter reaches
`max_conversations` the loop exits and offers `get_final_suggestion`. -/
def discussionLoop (client : ConvState) (sugg : Sugg) (count : Nat) :
    List UserEvent → DiscussionOutcome × Nat
  | [] =>
    if count < maxConversations then (.needInput, count)
    else (.finished (getFinalSuggestion client), count)
  | e :: rest =>
    if count < maxConversations then
      match e with
      | .empty => discussionLoop client sugg count rest
      | .exitReq true => (.cancelled, count)
      | .exitReq false => discussionLoop client sugg count rest
      | .say input out satisfied =>
        let cr := continueSuggestionConversation client input out
        if cr.2.success = false then
          discussionLoop cr.1 sugg count rest
        else
          let sugg' :=
            match cr.2.updatedSuggestion with
            | some u => if u ≠ [] ∧ u ≠ sugg then u else sugg
            | none => sugg
          if 3 ≤ count + 1 ∧ satisfied = true then
            (.finished (getFinalSuggestion cr.1), count + 1)
          else
            discussionLoop cr.1 sugg' (count + 1) rest
    else (.finished (getFinalSuggestion client), count)

/-- An event is productive when its AI call succeeds (a parsable
reply), which is exactly when the turn counter increments. -/
def UserEvent.productive : UserEvent → Bool
  | .say _ (.reply (some _) _) _ => true
  | _ => false

/-- An event resolves the discussion when it is a confirmed exit or a
satisfied answer to the satisfaction prompt. -/
def UserEvent.nonResolving : UserEvent → Bool
  | .empty => true
  | .exitReq c => !c
  | .say _ _ satisfied => !satisfied

lemma contSuccess_apiFail (st : ConvState) (input m : String) :
    (continueSuggestionConversation st input (.apiFail m)).2.success = false := rfl

lemma contSuccess_parseFail (st : ConvState) (input raw : String) :
    (continueSuggestionConversation st input (.reply none raw)).2.success = false := rfl

lemma contSuccess_ok (st : ConvState) (input raw : String) (pr : ParsedReply) :
    (continueSuggestionConversation st input (.reply (some pr) raw)).2.success = true := rfl

lemma discussionLoop_count_le (events : List UserEvent) :
    ∀ (client : ConvState) (sugg : Sugg) (count : Nat), count ≤ maxConversations →
      count ≤ (discussionLoop client sugg count events).2 ∧
        (discussionLoop client sugg count events).2 ≤ maxConversations := by
  induction events with
  | nil =>
    intro client sugg count hcount
    by_cases hlt : count < maxConversations <;> simp [discussionLoop, hlt, hcount]
  | cons e rest ih =>
    intro client sugg count hcount
    by_cases hlt : count < maxConversations
    · cases e with
      | empty =>
        have hred : discussionLoop client sugg count (UserEvent.empty :: rest) =
            discussionLoop client sugg count rest := by
          rw [discussionLoop]
          simp [hlt]
        rw [hred]
        exact ih client sugg count hcount
      | exitReq c =>
        cases c with
        | true =>
          have hred : discussionLoop client sugg count (UserEvent.exitReq true :: rest) =
              (DiscussionOutcome.cancelled, count) := by
            rw [discussionLoop]
            simp [hlt]
          rw [hred]
          exact ⟨le_refl _, hcount⟩
        | false =>
          have hred : discussionLoop client sugg count (UserEvent.exitReq false :: rest) =
              discussionLoop client sugg count rest := by
            rw [discussionLoop]
            simp [hlt]
          rw [hred]
          exact ih client sugg count hcount
      | say input out satisfied =>
        cases out with
        | apiFail m =>
          have hred : discussionLoop client sugg count
              (UserEvent.say input (.apiFail m) satisfied :: rest) =
              discussionLoop
                (continueSuggestionConversation client input (.apiFail m)).1
                sugg count rest := by
            rw [discussionLoop]
            simp [hlt, contSuccess_apiFail]
          rw [hred]
          exact ih _ sugg count hcount
        | reply parsed raw =>
          cases parsed with
          | none =>
            have hred : discussionLoop client sugg count
                (UserEvent.say input (.reply none raw) satisfied :: rest) =
                discussionLoop
                  (continueSuggestionConversation client input (.reply none raw)).1
                  sugg count rest := by
              rw [discussionLoop]
              simp [hlt, contSuccess_parseFail]
            rw [hred]
            exact ih _ sugg count hcount
          | some pr =>
            have hcount1 : count + 1 ≤ maxConversations := hlt
            by_cases hsat : 3 ≤ count + 1 ∧ satisfied = true
            · have hred : discussionLoop client sugg count
                  (UserEvent.say input (.reply (some pr) raw) satisfied :: rest) =
                  (.finished (getFinalSuggestion
                      (continueSuggestionConversation client input
                        (.reply (some pr) raw)).1), count + 1) := by
                rw [discussionLoop]
                simp [hlt, contSuccess_ok, hsat]
              rw [hred]
              exact ⟨Nat.le_succ _, hcount1⟩
            · have hred : discussionLoop client sugg count
                  (UserEvent.say input (.reply (some pr) raw) satisfied :: rest) =
                  discussionLoop
                    (continueSuggestionConversation client input
                      (.reply (some pr) raw)).1
                    (match (continueSuggestionConversation client input
                        (.reply (some pr) raw)).2.updatedSuggestion with
                      | some u => if u ≠ [] ∧ u ≠ sugg then u else sugg
                      | none => sugg)
                    (count + 1) rest := by
                rw [discussionLoop]
                simp only [if_pos hlt, contSuccess_ok]
                rw [if_neg (by simp), if_neg hsat]
              rw [hred]
              exact ⟨Nat.le_trans (Nat.le_succ _) (ih _ _ (count + 1) hcount1).1,
                (ih _ _ (count + 1) hcount1).2⟩
    · have hred : discussionLoop client sugg count (e :: rest) =
          (.finished (getFinalSuggestion client), count) := by
        rw [discussionLoop.eq_def]
        simp [hlt]
      rw [hred]
      exact ⟨le_refl _, hcount⟩

lemma discussionLoop_unresolved (events : List UserEvent) :
    ∀ (client : ConvState) (sugg : Sugg) (count : Nat), count ≤ maxConversations →
      (∀ e ∈ events, e.nonResolving = true) →
      maxConversations ≤ count + (events.filter UserEvent.productive).length →
      (discussionLoop client sugg count events).1.isFinished = true ∧
        (discussionLoop client sugg count events).2 = maxConversations := by
  induction events with
  | nil =>
    intro client sugg count hcount _ hge
    simp only [List.filter_nil, List.length_nil, Nat.add_zero] at hge
    have heq : count = maxConversations := le_antisymm hcount hge
    subst heq
    simp [discussionLoop, DiscussionOutcome.isFinished]
  | cons e rest ih =>
    intro client sugg count hcount hnr hge
    by_cases hlt : count < maxConversations
    · cases e with
      | empty =>
        have hred : discussionLoop client sugg count (UserEvent.empty :: rest) =
            discussionLoop client sugg count rest := by
          rw [discussionLoop]
          simp [hlt]
        rw [hred]
        refine ih client sugg count hcount (fun x hx => hnr x (List.mem_cons_of_mem _ hx)) ?_
        simpa [UserEvent.productive] using hge
      | exitReq c =>
        cases c with
        | true =>
          have := hnr _ (List.mem_cons_self _ _)
          simp [UserEvent.nonResolving] at this
        | false =>
          have hred : discussionLoop client sugg count (UserEvent.exitReq false :: rest) =
              discussionLoop client sugg count rest := by
            rw [discussionLoop]
            simp [hlt]
          rw [hred]
          refine ih client sugg count hcount (fun x hx => hnr x (List.mem_cons_of_mem _ hx)) ?_
          simpa [UserEvent.productive] using hge
      | say input out satisfied =>
        have hsatf : satisfied = false := by
          have := hnr _ (List.mem_cons_self _ _)
          simpa [UserEvent.nonResolving] using this
        subst hsatf
        cases out with
        | apiFail m =>
          have hred : discussionLoop client sugg count
              (UserEvent.say input (.apiFail m) false :: rest) =
              discussionLoop
                (continueSuggestionConversation client input (.apiFail m)).1
                sugg count rest := by
            rw [discussionLoop]
            simp [hlt, contSuccess_apiFail]
          rw [hred]
          refine ih _ sugg count hcount (fun x hx => hnr x (List.mem_cons_of_mem _ hx)) ?_
          simpa [UserEvent.productive] using hge
        | reply parsed raw =>
          cases parsed with
          | none =>
            have hred : discussionLoop client sugg count
                (UserEvent.say input (.reply none raw) false :: rest) =
                discussionLoop
                  (continueSuggestionConversation client input (.reply none raw)).1
                  sugg count rest := by
              rw [discussionLoop]
              simp [hlt, contSuccess_parseFail]
            rw [hred]
            refine ih _ sugg count hcount (fun x hx => hnr x (List.mem_cons_of_mem _ hx)) ?_
            simpa [UserEvent.productive] using hge
          | some pr =>
            have hsat : ¬ (3 ≤ count + 1 ∧ (false : Bool) = true) := by
              rintro ⟨-, hc⟩
              cases hc
            have hred : discussionLoop client sugg count
                (UserEvent.say input (.reply (some pr) raw) false :: rest) =
                discussionLoop
                  (continueSuggestionConversation client input
                    (.reply (some pr) raw)).1
                  (match (continueSuggestionConversation client input
                      (.reply (some pr) raw)).2.updatedSuggestion with
                    | some u => if u ≠ [] ∧ u ≠ sugg then u else sugg
                    | none => sugg)
                  (count + 1) rest := by
              rw [discussionLoop]
              simp only [if_pos hlt, contSuccess_ok]
              rw [if_neg (by simp), if_neg hsat]
            rw [hred]
            refine ih _ _ (count + 1) hlt (fun x hx => hnr x (List.mem_cons_of_mem _ hx)) ?_
            have hfil : ((UserEvent.say input (.reply (some pr) raw) false :: rest).filter
                UserEvent.productive).length =
                (rest.filter UserEvent.productive).length + 1 := by
              simp [List.filter_cons, UserEvent.productive]
            omega
    · have hcnt : count = maxConversations := by omega
      subst hcnt
      have hred : discussionLoop client sugg maxConversations (e :: rest) =
          (.finished (getFinalSuggestion client), maxConversations) := by
        rw [discussionLoop.eq_def]
        simp [hlt]
      rw [hred]
      exact ⟨rfl, rfl⟩

/-! ### Claim C5 -/

/-- C5: in the interactive discussion loop the turn counter is
monotonically non-decreasing and never exceeds the hard maximum of 10,
and for every event sequence that never resolves the discussion, once
10 productive turns are available the loop terminates with the final
draft (via `get_final_suggestion`) rather than continuing. -/
theorem discussion_loop_bounded_and_terminates (client : ConvState) (sugg : Sugg)
    (count : Nat) (events : List UserEvent) (hcount : count ≤ maxConversations) :
    (count ≤ (discussionLoop client sugg count events).2 ∧
      (discussionLoop client sugg count events).2 ≤ maxConversations) ∧
    ((∀ e ∈ events, e.nonResolving = true) →
      maxConversations ≤ count + (events.filter UserEvent.productive).length →
      (discussionLoop client sugg count events).1.isFinished = true ∧
        (discussionLoop client sugg count events).2 = maxConversations) :=
  ⟨discussionLoop_count_le events client sugg count hcount,
    fun hnr hge => discussionLoop_unresolved events client sugg count hcount hnr hge⟩

def c5sugg : Sugg := [("type", "move")]

def c5client : ConvState := startSuggestionConversation c5sugg

def c5events : List UserEvent :=
  List.replicate 12 (.say "再考虑一下" (.reply (some ⟨some "好的", none⟩) "resp") false)

/-- Witness for C5: twelve unresolving productive events drive the loop
to exactly 10 turns and a final-draft outcome. -/
theorem discussion_loop_bounded_and_terminates_witness :
    ((0 : Nat) ≤ maxConversations ∧
      (∀ e ∈ c5events, e.nonResolving = true) ∧
      maxConversations ≤ 0 + (c5events.filter UserEvent.productive).length) ∧
    ((discussionLoop c5client c5sugg 0 c5events).1.isFinished = true ∧
      (discussionLoop c5client c5sugg 0 c5events).2 = maxConversations) :=
  ⟨⟨by decide, by decide, by decide⟩,
    (discussion_loop_bounded_and_terminates c5client c5sugg 0 c5events (by decide)).2
      (by decide) (by decide)⟩

/-! ### The suggestion history store (`file_operations.py`, lines
103-157) -/

/-- One record of `suggestion_history` as built by
`record_suggestion_history`. -/
structure HistoryRecord where
  timestamp : String
  original : Sugg
  finalSuggestion : Sugg
  conversationHistory : List Msg
  userDecision : String
  suggestionId : Nat
deriving DecidableEq, Repr

/-- The store: the in-memory `suggestion_history` list and the contents
of `suggestion_history.json` (`none` when the file does not exist); the
JSON round trip is modelled as storing the list itself, matching the
full-rewrite-on-append persistence. -/
structure HistoryStore where
  history : List HistoryRecord
  savedFile : Option (List HistoryRecord)
deriving DecidableEq, Repr

/-- A fresh `FileOperator`'s store. -/
def emptyStore : HistoryStore := ⟨[], none⟩

/-- The arguments of one `record_suggestion_history` call. -/
structure RecordInput where
  timestamp : String
  original : Sugg
  finalSuggestion : Option Sugg
  conversationHistory : Option (List Msg)
  userDecision : String
deriving DecidableEq, Repr

/-- The record built at store length `n` (`suggestion_id` is
`len(self.suggestion_history) + 1`, and `final_suggestion` defaults to
the original). -/
def mkHistoryRecord (n : Nat) (inp : RecordInput) : HistoryRecord :=
  ⟨inp.timestamp, inp.original, inp.finalSuggestion.getD inp.original,
    inp.conversationHistory.getD [], inp.userDecision, n + 1⟩

/-- Embedding of `FileOperator.record_suggestion_history` (`file_operations.py`,
lines 103-130): append the record, then `_save_suggestion_history`
rewrites the whole JSON document. -/
def recordSuggestionHistory (st : HistoryStore) (inp : RecordInput) : HistoryStore :=
  let newHist := st.history ++ [mkHistoryRecord st.history.length inp]
  ⟨newHist, some newHist⟩

/-- Embedding of `FileOperator.load_suggestion_history` (`file_operations.py`, lines
147-157): replace the in-memory list with the parsed file contents when
the file exists. -/
def loadSuggestionHistory (st : HistoryStore) (file : Option (List HistoryRecord)) :
    HistoryStore :=
  match file with
  | some l => { st with history := l }
  | none => st

/-- The records produced by a sequence of calls starting from store
length `n`. -/
def builtRecords : Nat → List RecordInput → List HistoryRecord
  | _, [] => []
  | n, inp :: rest => mkHistoryRecord n inp :: builtRecords (n + 1) rest

lemma foldl_record_history :
    ∀ (inputs : List RecordInput) (st : HistoryStore),
      (inputs.foldl recordSuggestionHistory st).history =
        st.history ++ builtRecords st.history.length inputs := by
  intro inputs
  induction inputs with
  | nil => intro st; simp [builtRecords]
  | cons inp rest ih =>
    intro st
    rw [List.foldl_cons, ih]
    simp [recordSuggestionHistory, builtRecords]

lemma foldl_record_saved :
    ∀ (inputs : List RecordInput) (st : HistoryStore), inputs ≠ [] →
      (inputs.foldl recordSuggestionHistory st).savedFile =
        some (inputs.foldl recordSuggestionHistory st).history := by
  intro inputs
  induction inputs with
  | nil => intro st h; cases h rfl
  | cons inp rest ih =>
    intro st _
    rw [List.foldl_cons]
    by_cases hrest : rest = []
    · subst hrest
      simp [recordSuggestionHistory]
    · exact ih _ hrest

lemma builtRecords_length :
    ∀ (inputs : List RecordInput) (n : Nat), (builtRecords n inputs).length = inputs.length := by
  intro inputs
  induction inputs with
  | nil => intro n; simp [builtRecords]
  | cons inp rest ih =>
    intro n
    simp [builtRecords, ih]

lemma builtRecords_ids :
    ∀ (inputs : List RecordInput) (n : Nat),
      (builtRecords n inputs).map (fun r => r.suggestionId) =
        List.range' (n + 1) inputs.length := by
  intro inputs
  induction inputs with
  | nil => intro n; simp [builtRecords]
  | cons inp rest ih =>
    intro n
    simp [builtRecords, mkHistoryRecord, ih, List.range']

lemma builtRecords_decisions :
    ∀ (inputs : List RecordInput) (n : Nat),
      (builtRecords n inputs).map (fun r => r.userDecision) =
        inputs.map (fun i => i.userDecision) := by
  intro inputs
  induction inputs with
  | nil => intro n; simp [builtRecords]
  | cons inp rest ih =>
    intro n
    simp [builtRecords, mkHistoryRecord, ih]

/-! ### Claim C8 -/

/-- C8: recording N suggestions assigns `suggestion_id`s 1..N in order
(each equal to the store length at record time plus 1), and loading the
saved history into a fresh store yields N records with identical
`suggestion_id` ordering and `user_decision` values. -/
theorem history_roundtrip (inputs : List RecordInput) :
    ((inputs.foldl recordSuggestionHistory emptyStore).history.length = inputs.length) ∧
    ((inputs.foldl recordSuggestionHistory emptyStore).history.map
        (fun r => r.suggestionId) = List.range' 1 inputs.length) ∧
    ((loadSuggestionHistory emptyStore
        (inputs.foldl recordSuggestionHistory emptyStore).savedFile).history =
      (inputs.foldl recordSuggestionHistory emptyStore).history) ∧
    ((loadSuggestionHistory emptyStore
        (inputs.foldl recordSuggestionHistory emptyStore).savedFile).history.map
        (fun r => r.suggestionId) =
      (inputs.foldl recordSuggestionHistory emptyStore).history.map
        (fun r => r.suggestionId)) ∧
    ((loadSuggestionHistory emptyStore
        (inputs.foldl recordSuggestionHistory emptyStore).savedFile).history.map
        (fun r => r.userDecision) = inputs.map (fun i => i.userDecision)) := by
  have hload : (loadSuggestionHistory emptyStore
      (inputs.foldl recordSuggestionHistory emptyStore).savedFile).history =
      (inputs.foldl recordSuggestionHistory emptyStore).history := by
    by_cases hnil : inputs = []
    · subst hnil
      rfl
    · rw [foldl_record_saved inputs emptyStore hnil]
      rfl
  refine ⟨?_, ?_, hload, by rw [hload], ?_⟩
  · rw [foldl_record_history]
    simp [emptyStore, builtRecords_length]
  · rw [foldl_record_history]
    simp [emptyStore, builtRecords_ids]
  · rw [hload, foldl_record_history]
    simp [emptyStore, builtRecords_decisions]

/-! ### The merge executor (`cli.py`, `_execute_merge_suggestion`) -/

/-- Model of `source_path.iterdir()`: the direct children (files or directories)
of `d` — the paths one component below `d`. -/
def FS.childrenOf (fs : FS) (d : FPath) : List FPath :=
  (fs.files.map Prod.fst ++ fs.dirs).filter (fun p => !p.isEmpty && p.dropLast == d)

/-- The path rewrite performed on every path in a subtree by
`shutil.move(src, dst)` when `dst` does not exist: paths under `src`
are re-rooted at `dst`. -/
def moveSub (src dst p : FPath) : FPath :=
  if src <+: p then dst ++ p.drop src.length else p

/-- Model of `shutil.move` of a whole directory subtree. -/
def FS.moveDir (fs : FS) (src dst : FPath) : FS :=
  ⟨fs.files.map (fun e => (moveSub src dst e.1, e.2)), fs.dirs.map (moveSub src dst)⟩

/-- One iteration of the `for item in source_path.iterdir()` loop
(`cli.py`, lines 1227-1244): a file child goes through
`file_operator.move_file`, a directory child through `shutil.move`
(recorded as a synthetic success, and skipped in dry-run mode). -/
def mergeChildStep (dryRun : Bool) (fault : MoveFault) (tgt : FPath)
    (st : FS × List Bool) (item : FPath) : FS × List Bool :=
  if st.1.isFile item then
    let mr := moveFile dryRun fault st.1 item (tgt ++ [pathName item])
    (mr.1, st.2 ++ [mr.2.success])
  else
    (if !dryRun then st.1.moveDir item (tgt ++ [pathName item]) else st.1,
      st.2 ++ [true])

/-- Embedding of `_execute_merge_suggestion` (`cli.py`, lines 1210-1258): guard that
the source is an existing directory, ensure the target directory exists,
move every direct child into the target, remove the then-empty source
directory (non-dry-run only), and succeed iff every child move
succeeded. -/
def executeMergeSuggestion (dryRun : Bool) (fault : MoveFault) (fs : FS)
    (src tgt : FPath) : FS × ExecResult :=
  if !(fs.pathExists src) || !(fs.isDir src) then
    (fs, ⟨false, "merge", [], some ("源目录不存在或不是目录: " ++ renderPath src)⟩)
  else
    let fs1 := fs.mkdirP tgt
    let step := (fs1.childrenOf src).foldl (mergeChildStep dryRun fault tgt) (fs1, [])
    let fs3 :=
      if !dryRun && (step.1.childrenOf src).isEmpty then step.1.rmdir src else step.1
    (fs3, ⟨step.2.all id, "merge", step.2, none⟩)

/-! ### Path and filesystem lemmas supporting the merge proof -/

/-- Prop-level view of `pathExists`. -/
def FS.HasPath (fs : FS) (p : FPath) : Prop :=
  p ∈ fs.files.map Prod.fst ∨ p ∈ fs.dirs

lemma bool_eq_of_iff {a b : Bool} (h : a = true ↔ b = true) : a = b := by
  cases a <;> cases b <;> simp_all

lemma isFile_iff_mem_keys {fs : FS} {p : FPath} :
    fs.isFile p = true ↔ p ∈ fs.files.map Prod.fst := by
  unfold FS.isFile
  rw [List.any_eq_true]
  constructor
  · rintro ⟨e, he, hbeq⟩
    have heq : e.1 = p := by simpa [beq_iff_eq] using hbeq
    exact heq ▸ List.mem_map_of_mem _ he
  · intro hp
    obtain ⟨e, he, hfst⟩ := List.mem_map.mp hp
    exact ⟨e, he, by simp [beq_iff_eq, hfst]⟩

lemma isDir_iff_mem {fs : FS} {p : FPath} : fs.isDir p = true ↔ p ∈ fs.dirs := by
  unfold FS.isDir
  rw [List.any_eq_true]
  constructor
  · rintro ⟨q, hq, hbeq⟩
    have heq : q = p := by simpa [beq_iff_eq] using hbeq
    exact heq ▸ hq
  · intro hp
    exact ⟨p, hp, by simp⟩

lemma pathExists_iff_HasPath {fs : FS} {p : FPath} :
    fs.pathExists p = true ↔ fs.HasPath p := by
  unfold FS.pathExists FS.HasPath
  rw [Bool.or_eq_true, isFile_iff_mem_keys, isDir_iff_mem]

lemma pathExists_false_iff_not_HasPath {fs : FS} {p : FPath} :
    fs.pathExists p = false ↔ ¬ fs.HasPath p := by
  rw [← pathExists_iff_HasPath]
  cases h : fs.pathExists p <;> simp

lemma isFile_false_iff_not_mem {fs : FS} {p : FPath} :
    fs.isFile p = false ↔ p ∉ fs.files.map Prod.fst := by
  rw [← isFile_iff_mem_keys]
  cases h : fs.isFile p <;> simp

lemma mem_childrenOf_iff {fs : FS} {p d : FPath} :
    p ∈ fs.childrenOf d ↔ fs.HasPath p ∧ p ≠ [] ∧ p.dropLast = d := by
  unfold FS.childrenOf FS.HasPath
  rw [List.mem_filter, List.mem_append]
  constructor
  · rintro ⟨hmem, hcond⟩
    have h1 : p ≠ [] ∧ p.dropLast = d := by
      simpa [List.isEmpty_iff, beq_iff_eq] using hcond
    exact ⟨hmem, h1⟩
  · rintro ⟨hmem, h1, h2⟩
    refine ⟨hmem, ?_⟩
    simp [List.isEmpty_iff, beq_iff_eq, h1, h2]

lemma eq_dropLast_concat_name : ∀ {p : FPath}, p ≠ [] → p = p.dropLast ++ [pathName p] := by
  intro p
  induction p with
  | nil => intro h; cases h rfl
  | cons a t ih =>
    intro _
    cases t with
    | nil => rfl
    | cons b t2 =>
      have h2 : (b :: t2 : FPath) ≠ [] := by simp
      have hrec := ih h2
      have hdrop : ((a :: b :: t2 : FPath)).dropLast = a :: (b :: t2 : FPath).dropLast :=
        List.dropLast_cons₂ ..
      have hname : pathName (a :: b :: t2 : FPath) = pathName (b :: t2 : FPath) := by
        simp [pathName, List.getLastD_cons]
      rw [hdrop, hname]
      rw [List.cons_append]
      exact congrArg (a :: ·) hrec

lemma childrenOf_form {fs : FS} {d p : FPath} (h : p ∈ fs.childrenOf d) :
    p = d ++ [pathName p] ∧ p ≠ [] := by
  obtain ⟨-, hne, hdrop⟩ := mem_childrenOf_iff.mp h
  refine ⟨?_, hne⟩
  conv_lhs => rw [eq_dropLast_concat_name hne]
  rw [hdrop]

lemma prefix_concat_of_le {l m : FPath} {a : String} (h : l <+: m ++ [a])
    (hlen : l.length ≤ m.length) : l <+: m := by
  rw [List.prefix_iff_eq_take] at h ⊢
  rwa [List.take_append_of_le_length hlen] at h

lemma slot_eq_concat_imp {src tgt : FPath} {x y : String}
    (h : tgt ++ [x] = src ++ [y]) : tgt = src ∧ x = y := by
  have hlen : tgt.length = src.length := by
    have := congrArg List.length h
    simpa using this
  obtain ⟨h1, h2⟩ := List.append_inj h hlen
  exact ⟨h1, by simpa using h2⟩

lemma child_not_prefix_slot {src tgt c : FPath} {x : String}
    (hc : c = src ++ [pathName c]) (hns : ¬ src <+: tgt) (hnt : ¬ tgt <+: src) :
    ¬ c <+: tgt ++ [x] := by
  intro hpre
  have hsrcc : src <+: c := by
    rw [hc]
    exact List.prefix_append _ _
  rcases Nat.lt_or_ge c.length (tgt.length + 1) with hlt | hge
  · have hle : c.length ≤ tgt.length := Nat.lt_succ_iff.mp hlt
    exact hns (hsrcc.trans (prefix_concat_of_le hpre hle))
  · have hlen2 : (tgt ++ [x]).length ≤ c.length := by simpa using hge
    have heqlen : c.length = (tgt ++ [x]).length := le_antisymm hpre.length_le hlen2
    have heq : c = tgt ++ [x] := hpre.eq_of_length heqlen
    rw [hc] at heq
    obtain ⟨hst, -⟩ := slot_eq_concat_imp heq.symm
    rw [hst] at hnt
    exact hnt (List.prefix_refl _)

lemma child_not_prefix_of_tgt_anc {src tgt c a : FPath}
    (hc : c = src ++ [pathName c]) (hns : ¬ src <+: tgt) (ha : a <+: tgt) :
    ¬ c <+: a := by
  intro h
  have hsrcc : src <+: c := by
    rw [hc]
    exact List.prefix_append _ _
  exact hns (hsrcc.trans (h.trans ha))

lemma child_not_prefix_child {src c c' : FPath}
    (hc : c = src ++ [pathName c]) (hc' : c' = src ++ [pathName c'])
    (hne : c ≠ c') : ¬ c <+: c' := by
  intro h
  have hlen : c.length = c'.length := by
    rw [hc, hc']
    simp
  exact hne (h.eq_of_length hlen)

lemma child_not_prefix_src {src c : FPath} (hc : c = src ++ [pathName c]) :
    ¬ c <+: src := by
  intro h
  have hle := h.length_le
  rw [hc] at hle
  simp at hle

lemma slot_ne_src {src tgt : FPath} {x : String} (hnt : ¬ tgt <+: src) :
    tgt ++ [x] ≠ src := by
  intro h
  rw [← h] at hnt
  exact hnt (List.prefix_append tgt [x])

lemma slot_ne_child {src tgt c : FPath} {x : String} (hc : c = src ++ [pathName c])
    (hne : src ≠ tgt) : tgt ++ [x] ≠ c := by
  intro h
  rw [hc] at h
  exact hne (slot_eq_concat_imp h).1.symm

lemma prefixOfAncestor {tgt a : FPath} (h : a ∈ ancestorsOf tgt) : a <+: tgt := by
  unfold ancestorsOf at h
  obtain ⟨i, -, rfl⟩ := List.mem_map.mp h
  exact List.take_prefix _ _

lemma moveSub_eq_self {c d p : FPath} (h : ¬ c <+: p) : moveSub c d p = p :=
  if_neg h

lemma moveSub_eq_iff_of_excl {c d w : FPath}
    (h1 : ¬ c <+: w)
    (h2 : ∀ q, c <+: q → d ++ q.drop c.length ≠ w) :
    ∀ q, moveSub c d q = w ↔ q = w := by
  intro q
  unfold moveSub
  by_cases hq : c <+: q
  · rw [if_pos hq]
    constructor
    · intro he
      exact absurd he (h2 q hq)
    · rintro rfl
      exact absurd hq h1
  · rw [if_neg hq]

lemma beq_congr_of_iff {a b w : FPath} (h : a = w ↔ b = w) : (a == w) = (b == w) := by
  by_cases hb : b = w
  · simp [hb, h.mpr hb]
  · have ha : ¬ a = w := fun hh => hb (h.mp hh)
    simp [hb, ha]

lemma any_beq_map_moveSub (l : List (FPath × Nat)) {c d w : FPath}
    (h : ∀ q, moveSub c d q = w ↔ q = w) :
    (l.map (fun e => (moveSub c d e.1, e.2))).any (fun e => e.1 == w) =
      l.any (fun e => e.1 == w) := by
  induction l with
  | nil => rfl
  | cons e t ih =>
    simp only [List.map_cons, List.any_cons, ih]
    rw [beq_congr_of_iff (h e.1)]

lemma any_beq_map_moveSub_dirs (l : List FPath) {c d w : FPath}
    (h : ∀ q, moveSub c d q = w ↔ q = w) :
    (l.map (moveSub c d)).any (fun q => q == w) = l.any (fun q => q == w) := by
  induction l with
  | nil => rfl
  | cons e t ih =>
    simp only [List.map_cons, List.any_cons, ih]
    rw [beq_congr_of_iff (h e)]

lemma isFile_moveDir_stable {g : FS} {c d w : FPath}
    (h : ∀ q, moveSub c d q = w ↔ q = w) :
    (g.moveDir c d).isFile w = g.isFile w := by
  unfold FS.moveDir FS.isFile
  exact any_beq_map_moveSub g.files h

lemma isDir_moveDir_stable {g : FS} {c d w : FPath}
    (h : ∀ q, moveSub c d q = w ↔ q = w) :
    (g.moveDir c d).isDir w = g.isDir w := by
  unfold FS.moveDir FS.isDir
  exact any_beq_map_moveSub_dirs g.dirs h

lemma HasPath_moveDir_iff {g : FS} {c d w : FPath} :
    (g.moveDir c d).HasPath w ↔ ∃ q, g.HasPath q ∧ moveSub c d q = w := by
  unfold FS.moveDir FS.HasPath
  have hmm : (g.files.map (fun e => (moveSub c d e.1, e.2))).map Prod.fst =
      g.files.map (fun e => moveSub c d e.1) := by
    rw [List.map_map]
    rfl
  rw [hmm]
  constructor
  · rintro (hf | hd)
    · obtain ⟨e, he, hfst⟩ := List.mem_map.mp hf
      exact ⟨e.1, Or.inl (List.mem_map_of_mem _ he), hfst⟩
    · obtain ⟨q, hq, hqe⟩ := List.mem_map.mp hd
      exact ⟨q, Or.inr hq, hqe⟩
  · rintro ⟨q, hq | hq, hw⟩
    · obtain ⟨e, he, hfst⟩ := List.mem_map.mp hq
      refine Or.inl (List.mem_map.mpr ⟨e, he, ?_⟩)
      rw [hfst, hw]
    · exact Or.inr (List.mem_map.mpr ⟨q, hq, hw⟩)

lemma HasPath_moveDir_of {g : FS} {c d q : FPath} (h : g.HasPath q) :
    (g.moveDir c d).HasPath (moveSub c d q) :=
  HasPath_moveDir_iff.mpr ⟨q, h, rfl⟩

lemma HasPath_moveDir_stable {g : FS} {c d w : FPath}
    (h : ∀ q, moveSub c d q = w ↔ q = w) :
    (g.moveDir c d).HasPath w ↔ g.HasPath w := by
  rw [HasPath_moveDir_iff]
  constructor
  · rintro ⟨q, hq, heq⟩
    rwa [(h q).mp heq] at hq
  · intro hw
    exact ⟨w, hw, (h w).mpr rfl⟩

lemma mem_keys_filter_iff {l : List (FPath × Nat)} {c w : FPath} :
    w ∈ (l.filter (fun e => !(e.1 == c))).map Prod.fst ↔
      (w ∈ l.map Prod.fst ∧ w ≠ c) := by
  constructor
  · intro h
    obtain ⟨e, he, hfst⟩ := List.mem_map.mp h
    have hmf := List.mem_filter.mp he
    have hnec : e.1 ≠ c := by
      have h2 := hmf.2
      simpa [Bool.not_eq_true', beq_eq_false_iff_ne] using h2
    subst hfst
    exact ⟨List.mem_map_of_mem _ hmf.1, hnec⟩
  · rintro ⟨hmem, hnec⟩
    obtain ⟨e, he, hfst⟩ := List.mem_map.mp hmem
    refine List.mem_map.mpr ⟨e, List.mem_filter.mpr ⟨he, ?_⟩, hfst⟩
    subst hfst
    simpa [Bool.not_eq_true', beq_eq_false_iff_ne] using hnec

lemma filter_single_keep {c slot : FPath} {n : Nat} (hsc : slot ≠ c) :
    ([(slot, n)] : List (FPath × Nat)).filter (fun e => !(e.1 == c)) = [(slot, n)] := by
  have hb : ((slot, n).1 == c) = false := by
    simpa [beq_eq_false_iff_ne] using hsc
  simp [List.filter_cons, hb]

lemma HasPath_after_fileMove {g : FS} {c slot w : FPath} {n : Nat} (hsc : slot ≠ c) :
    (FS.removeFile { g with files := g.files ++ [(slot, n)] } c).HasPath w ↔
      ((w ∈ g.files.map Prod.fst ∧ w ≠ c) ∨ w = slot ∨ w ∈ g.dirs) := by
  unfold FS.removeFile FS.HasPath
  simp only [List.filter_append, filter_single_keep hsc, List.map_append, List.mem_append]
  constructor
  · rintro ((hw1 | hw2) | hw3)
    · exact Or.inl (mem_keys_filter_iff.mp hw1)
    · simp only [List.map_cons, List.map_nil, List.mem_singleton] at hw2
      exact Or.inr (Or.inl hw2)
    · exact Or.inr (Or.inr hw3)
  · rintro (h1 | h2 | h3)
    · exact Or.inl (Or.inl (mem_keys_filter_iff.mpr h1))
    · subst h2
      refine Or.inl (Or.inr ?_)
      simp
    · exact Or.inr h3

lemma isFile_after_fileMove_ne {g : FS} {c slot w : FPath} {n : Nat}
    (hwc : w ≠ c) (hws : w ≠ slot) :
    (FS.removeFile { g with files := g.files ++ [(slot, n)] } c).isFile w = g.isFile w := by
  apply bool_eq_of_iff
  rw [isFile_iff_mem_keys, isFile_iff_mem_keys]
  unfold FS.removeFile
  simp only [List.filter_append, List.map_append, List.mem_append]
  constructor
  · rintro (h1 | h2)
    · exact (mem_keys_filter_iff.mp h1).1
    · exfalso
      obtain ⟨e, he, hfst⟩ := List.mem_map.mp h2
      have hein : e ∈ ([(slot, n)] : List (FPath × Nat)) := (List.mem_filter.mp he).1
      simp only [List.mem_singleton] at hein
      subst hein
      exact hws hfst.symm
  · intro h
    exact Or.inl (mem_keys_filter_iff.mpr ⟨h, hwc⟩)

lemma isDir_after_fileMove {g : FS} {c slot w : FPath} {n : Nat} :
    (FS.removeFile { g with files := g.files ++ [(slot, n)] } c).isDir w = g.isDir w := rfl

lemma slot_not_prefix_child {src tgt c' : FPath} {x : String}
    (hc' : c' = src ++ [pathName c']) (hnt : ¬ tgt <+: src) (hne : src ≠ tgt) :
    ¬ (tgt ++ [x]) <+: c' := by
  intro h
  rcases Nat.lt_or_ge c'.length ((tgt ++ [x]).length) with hlt | hge
  · have := h.length_le
    omega
  · rw [hc'] at h hge
    rcases Nat.lt_or_ge ((tgt ++ [x]).length) (src.length + 1) with hlt2 | hge2
    · have hle : (tgt ++ [x]).length ≤ src.length := by
        simpa using Nat.lt_succ_iff.mp hlt2
      have h2 : (tgt ++ [x]) <+: src := prefix_concat_of_le h hle
      exact hnt ((List.prefix_append tgt [x]).trans h2)
    · have hlen : (tgt ++ [x]).length = (src ++ [pathName c']).length := by
        simp only [List.length_append, List.length_singleton] at hge2 ⊢
        have := h.length_le
        simp only [List.length_append, List.length_singleton] at this
        omega
      have heq := h.eq_of_length hlen
      exact hne (slot_eq_concat_imp heq).1.symm

lemma slot_not_prefix_slot_ne {tgt : FPath} {x y : String} (hxy : x ≠ y) :
    ¬ (tgt ++ [x]) <+: tgt ++ [y] := by
  intro h
  have hlen : (tgt ++ [x]).length = (tgt ++ [y]).length := by simp
  have heq := h.eq_of_length hlen
  exact hxy (slot_eq_concat_imp heq).2

lemma slot_not_prefix_src {src tgt : FPath} {x : String} (hnt : ¬ tgt <+: src) :
    ¬ (tgt ++ [x]) <+: src := by
  intro h
  exact hnt ((List.prefix_append tgt [x]).trans h)

lemma slot_not_prefix_ancestor {tgt a : FPath} {x : String} (ha : a ∈ ancestorsOf tgt) :
    ¬ (tgt ++ [x]) <+: a := by
  intro h
  have h1 := h.length_le
  have h2 := (prefixOfAncestor ha).length_le
  simp only [List.length_append, List.length_singleton] at h1
  omega

lemma moveSub_stable_outside {c slot w : FPath} (h1 : ¬ c <+: w)
    (h2 : ¬ slot <+: w) : ∀ q, moveSub c slot q = w ↔ q = w :=
  moveSub_eq_iff_of_excl h1 (fun _ _ he => h2 (he ▸ List.prefix_append slot _))

lemma moveSub_self_eq_dst {c slot : FPath} : moveSub c slot c = slot := by
  unfold moveSub
  rw [if_pos (List.prefix_refl c), List.drop_length, List.append_nil]

lemma dirs_after_fileMove {g : FS} {c slot : FPath} {n : Nat} :
    (FS.removeFile { g with files := g.files ++ [(slot, n)] } c).dirs = g.dirs := rfl

lemma HasPath_rmdir_ne {g : FS} {s w : FPath} (h : w ≠ s) :
    ((g.rmdir s).HasPath w ↔ g.HasPath w) := by
  unfold FS.rmdir FS.HasPath
  constructor
  · rintro (hf | hd)
    · exact Or.inl hf
    · exact Or.inr (List.mem_filter.mp hd).1
  · rintro (hf | hd)
    · exact Or.inl hf
    · refine Or.inr (List.mem_filter.mpr ⟨hd, ?_⟩)
      simpa [Bool.not_eq_true', beq_eq_false_iff_ne] using h

lemma not_HasPath_rmdir_self {g : FS} {s : FPath} (hnf : g.isFile s = false) :
    ¬ (g.rmdir s).HasPath s := by
  unfold FS.rmdir FS.HasPath
  rintro (hf | hd)
  · exact (isFile_false_iff_not_mem.mp hnf) hf
  · have := (List.mem_filter.mp hd).2
    simp at this

/-- The result of a successful fault-free `move_file` of file `c` to a
free slot whose parent directory chain exists. -/
lemma moveFile_success_state {g : FS} {fault : MoveFault} {c slot : FPath}
    (hsafe1 : isSafePath c = true) (hsafe2 : isSafePath slot = true)
    (hfile : g.isFile c = true)
    (hfree : g.pathExists slot = false)
    (hanc : ∀ q ∈ ancestorsOf (parentPath slot), q ∈ g.dirs)
    (hfault : ∀ n, fault.copiedSize n = n) (hul : fault.unlinkFails = false) :
    ∃ n, moveFile false fault g c slot =
      (FS.removeFile { g with files := g.files ++ [(slot, n)] } c,
        ⟨"move_file", renderPath c, renderPath slot, true, false, none, none⟩) := by
  obtain ⟨n, hn⟩ : ∃ n, g.lookupFile c = some n := by
    have hs := isFile_eq_true_iff_lookup.mp hfile
    cases hx : g.lookupFile c with
    | none => rw [hx] at hs; cases hs
    | some m => exact ⟨m, rfl⟩
  refine ⟨n, ?_⟩
  have hex : g.pathExists c = true := by simp [FS.pathExists, hfile]
  have hmk : g.mkdirP (parentPath slot) = g := mkdirP_eq_self hanc
  unfold moveFile
  rw [hsafe1, hsafe2]
  simp only [Bool.and_self, Bool.not_true, Bool.false_eq_true, if_false, hex, hfile,
    Bool.not_false, if_true, hfree, hmk, hn]
  simp [hfault n, hul]

/-- Loop invariant of the merge fold: `fs0` is the filesystem right
after the target directory was ensured, `done`/`rs` the processed and
remaining children of `src`, and `g` the current filesystem. -/
structure MergeInv (src tgt : FPath) (fs0 g : FS) (done rs : List FPath) : Prop where
  split : fs0.childrenOf src = done ++ rs
  sameFile : ∀ c ∈ rs, g.isFile c = fs0.isFile c
  sameDir : ∀ c ∈ rs, g.isDir c = fs0.isDir c
  free : ∀ c ∈ rs, ¬ g.HasPath (tgt ++ [pathName c])
  anc : ∀ q ∈ ancestorsOf tgt, q ∈ g.dirs
  placed : ∀ c ∈ done, g.HasPath (tgt ++ [pathName c])
  childiff : ∀ p, (g.HasPath p ∧ p ≠ [] ∧ p.dropLast = src) ↔ p ∈ rs
  nosrcfile : g.isFile src = false

lemma child_name_inj {src c c' : FPath} (hc : c = src ++ [pathName c])
    (hc' : c' = src ++ [pathName c']) (hn : pathName c = pathName c') : c = c' := by
  rw [hc, hc', hn]

lemma mergeChildStep_inv {src tgt : FPath} {fs0 : FS} {fault : MoveFault}
    (hns : ¬ src <+: tgt) (hnt : ¬ tgt <+: src)
    (hfault : ∀ n, fault.copiedSize n = n) (hul : fault.unlinkFails = false)
    (hnodup : (fs0.childrenOf src).Nodup)
    (hdisj : ∀ x, x ∈ fs0.files.map Prod.fst → x ∉ fs0.dirs)
    (hsafe : ∀ c ∈ fs0.childrenOf src,
      isSafePath c = true ∧ isSafePath (tgt ++ [pathName c]) = true)
    {c : FPath} {rs' done : List FPath} {g : FS} (acc : List Bool)
    (hinv : MergeInv src tgt fs0 g done (c :: rs')) :
    ∃ g', mergeChildStep false fault tgt (g, acc) c = (g', acc ++ [true]) ∧
      MergeInv src tgt fs0 g' (done ++ [c]) rs' := by
  have hne_st : src ≠ tgt := fun h => hns (h ▸ List.prefix_refl src)
  have hmemc : c ∈ fs0.childrenOf src := by
    rw [hinv.split]
    exact List.mem_append_right _ (List.mem_cons_self _ _)
  have hc : c = src ++ [pathName c] := (childrenOf_form hmemc).1
  have hcne : c ≠ [] := (childrenOf_form hmemc).2
  have hmem_rs' : ∀ x ∈ rs', x ∈ fs0.childrenOf src := fun x hx => by
    rw [hinv.split]
    exact List.mem_append_right _ (List.mem_cons_of_mem _ hx)
  have hmem_done : ∀ x ∈ done, x ∈ fs0.childrenOf src := fun x hx => by
    rw [hinv.split]
    exact List.mem_append_left _ hx
  have hnd : (done ++ c :: rs').Nodup := hinv.split ▸ hnodup
  have hc_not_rs' : c ∉ rs' := by
    have h2 := (List.nodup_append.mp hnd).2.1
    exact (List.nodup_cons.mp h2).1
  have hc_not_done : c ∉ done := by
    intro hcd
    exact List.disjoint_of_nodup_append hnd hcd (List.mem_cons_self _ _)
  have hname_ne : ∀ x ∈ fs0.childrenOf src, x ≠ c → pathName x ≠ pathName c := by
    intro x hx hne hnn
    exact hne (child_name_inj (childrenOf_form hx).1 hc hnn)
  have hc_ne_src : c ≠ src := by
    intro h
    rw [h] at hc
    have := congrArg List.length hc
    simp at this
  have hslot_ne_c : tgt ++ [pathName c] ≠ c := slot_ne_child hc hne_st
  by_cases hb : g.isFile c = true
  · -- file child: `file_operator.move_file`
    obtain ⟨hsafe1, hsafe2⟩ := hsafe c hmemc
    have hfree_c : g.pathExists (tgt ++ [pathName c]) = false :=
      pathExists_false_iff_not_HasPath.mpr (hinv.free c (List.mem_cons_self _ _))
    have hanc' : ∀ q ∈ ancestorsOf (parentPath (tgt ++ [pathName c])), q ∈ g.dirs := by
      intro q hq
      rw [parentPath, List.dropLast_concat] at hq
      exact hinv.anc q hq
    obtain ⟨n, hmv⟩ := moveFile_success_state hsafe1 hsafe2 hb hfree_c hanc' hfault hul
    refine ⟨FS.removeFile { g with files := g.files ++ [(tgt ++ [pathName c], n)] } c,
      ?_, ?_⟩
    · simp only [mergeChildStep, hb, if_true, hmv]
    · constructor
      · rw [hinv.split]
        simp
      · intro c' hc'
        have hcc' : c' ≠ c := fun h => hc_not_rs' (h ▸ hc')
        have hcs' : c' ≠ tgt ++ [pathName c] := fun h =>
          slot_ne_child (childrenOf_form (hmem_rs' c' hc')).1 hne_st h.symm
        rw [isFile_after_fileMove_ne hcc' hcs']
        exact hinv.sameFile c' (List.mem_cons_of_mem _ hc')
      · intro c' hc'
        rw [isDir_after_fileMove]
        exact hinv.sameDir c' (List.mem_cons_of_mem _ hc')
      · intro c' hc' hHP
        rw [HasPath_after_fileMove hslot_ne_c] at hHP
        rcases hHP with ⟨hk, -⟩ | hps | hpd
        · exact hinv.free c' (List.mem_cons_of_mem _ hc') (Or.inl hk)
        · have hnn : pathName c' = pathName c := (slot_eq_concat_imp hps).2
          have : c' = c :=
            child_name_inj (childrenOf_form (hmem_rs' c' hc')).1 hc hnn
          exact hc_not_rs' (this ▸ hc')
        · exact hinv.free c' (List.mem_cons_of_mem _ hc') (Or.inr hpd)
      · intro q hq
        rw [dirs_after_fileMove]
        exact hinv.anc q hq
      · intro x hx
        rcases List.mem_append.mp hx with hxd | hxc
        · rw [HasPath_after_fileMove hslot_ne_c]
          rcases hinv.placed x hxd with hk | hd
          · exact Or.inl ⟨hk, slot_ne_child hc hne_st⟩
          · exact Or.inr (Or.inr hd)
        · simp only [List.mem_singleton] at hxc
          subst hxc
          rw [HasPath_after_fileMove hslot_ne_c]
          exact Or.inr (Or.inl rfl)
      · intro p
        rw [HasPath_after_fileMove hslot_ne_c]
        constructor
        · rintro ⟨hp, hne, hdrop⟩
          rcases hp with ⟨hk, hpnec⟩ | hps | hpd
          · have hmem : p ∈ c :: rs' := (hinv.childiff p).mp ⟨Or.inl hk, hne, hdrop⟩
            rcases List.mem_cons.mp hmem with rfl | hmem2
            · exact absurd rfl hpnec
            · exact hmem2
          · subst hps
            rw [List.dropLast_concat] at hdrop
            exact absurd hdrop.symm hne_st
          · have hmem : p ∈ c :: rs' :=
              (hinv.childiff p).mp ⟨Or.inr hpd, hne, hdrop⟩
            rcases List.mem_cons.mp hmem with rfl | hmem2
            · exfalso
              have hdir : g.isDir p = true := isDir_iff_mem.mpr hpd
              have hf0f : fs0.isFile p = true := by
                rw [← hinv.sameFile p (List.mem_cons_self _ _)]
                exact hb
              have hf0d : fs0.isDir p = true := by
                rw [← hinv.sameDir p (List.mem_cons_self _ _)]
                exact hdir
              exact hdisj p (isFile_iff_mem_keys.mp hf0f) (isDir_iff_mem.mp hf0d)
            · exact hmem2
        · intro hp
          have hgp := (hinv.childiff p).mpr (List.mem_cons_of_mem _ hp)
          refine ⟨?_, hgp.2.1, hgp.2.2⟩
          rcases hgp.1 with hk | hd
          · exact Or.inl ⟨hk, fun h => hc_not_rs' (h ▸ hp)⟩
          · exact Or.inr (Or.inr hd)
      · rw [isFile_after_fileMove_ne (Ne.symm hc_ne_src) (Ne.symm (slot_ne_src hnt))]
        exact hinv.nosrcfile
  · -- directory child: `shutil.move`
    have hbf : g.isFile c = false := by
      cases h : g.isFile c with
      | false => rfl
      | true => exact absurd h hb
    have hgp : g.HasPath c := ((hinv.childiff c).mpr (List.mem_cons_self _ _)).1
    have hcd : c ∈ g.dirs := by
      rcases hgp with hk | hd
      · exact absurd hk (isFile_false_iff_not_mem.mp hbf)
      · exact hd
    have hstab : ∀ w, ¬ c <+: w → ¬ (tgt ++ [pathName c]) <+: w →
        ∀ q, moveSub c (tgt ++ [pathName c]) q = w ↔ q = w := fun w h1 h2 =>
      moveSub_stable_outside h1 h2
    have hstab_child : ∀ x ∈ fs0.childrenOf src, x ≠ c →
        ∀ q, moveSub c (tgt ++ [pathName c]) q = x ↔ q = x := by
      intro x hx hne
      exact hstab x
        (child_not_prefix_child hc (childrenOf_form hx).1 (fun h => hne h.symm))
        (slot_not_prefix_child (childrenOf_form hx).1 hnt hne_st)
    have hstab_slot : ∀ x ∈ fs0.childrenOf src, x ≠ c →
        ∀ q, moveSub c (tgt ++ [pathName c]) q = tgt ++ [pathName x] ↔
          q = tgt ++ [pathName x] := by
      intro x hx hne
      exact hstab (tgt ++ [pathName x])
        (child_not_prefix_slot hc hns hnt)
        (slot_not_prefix_slot_ne (Ne.symm (hname_ne x hx hne)))
    refine ⟨g.moveDir c (tgt ++ [pathName c]), ?_, ?_⟩
    · simp only [mergeChildStep, hbf, Bool.false_eq_true, if_false, Bool.not_false,
        if_true]
    · constructor
      · rw [hinv.split]
        simp
      · intro c' hc'
        rw [isFile_moveDir_stable
          (hstab_child c' (hmem_rs' c' hc') (fun h => hc_not_rs' (h ▸ hc')))]
        exact hinv.sameFile c' (List.mem_cons_of_mem _ hc')
      · intro c' hc'
        rw [isDir_moveDir_stable
          (hstab_child c' (hmem_rs' c' hc') (fun h => hc_not_rs' (h ▸ hc')))]
        exact hinv.sameDir c' (List.mem_cons_of_mem _ hc')
      · intro c' hc'
        rw [HasPath_moveDir_stable
          (hstab_slot c' (hmem_rs' c' hc') (fun h => hc_not_rs' (h ▸ hc')))]
        exact hinv.free c' (List.mem_cons_of_mem _ hc')
      · intro q hq
        have hq' := hinv.anc q hq
        have hmq : moveSub c (tgt ++ [pathName c]) q = q :=
          moveSub_eq_self (child_not_prefix_of_tgt_anc hc hns (prefixOfAncestor hq))
        exact hmq ▸ List.mem_map_of_mem _ hq'
      · intro x hx
        rcases List.mem_append.mp hx with hxd | hxc
        · rw [HasPath_moveDir_stable
            (hstab_slot x (hmem_done x hxd) (fun h => hc_not_done (h ▸ hxd)))]
          exact hinv.placed x hxd
        · simp only [List.mem_singleton] at hxc
          subst hxc
          have hmove := HasPath_moveDir_of (g := g)
            (c := x) (d := tgt ++ [pathName x]) (Or.inr hcd)
          rwa [moveSub_self_eq_dst] at hmove
      · intro p
        constructor
        · rintro ⟨hp, hne, hdrop⟩
          rw [HasPath_moveDir_iff] at hp
          obtain ⟨q, hq, hqe⟩ := hp
          by_cases hcq : c <+: q
          · exfalso
            have hpe : p = (tgt ++ [pathName c]) ++ q.drop c.length := by
              rw [← hqe]
              unfold moveSub
              rw [if_pos hcq]
            cases hr : q.drop c.length with
            | nil =>
              rw [hr, List.append_nil] at hpe
              subst hpe
              rw [List.dropLast_concat] at hdrop
              exact hne_st hdrop.symm
            | cons a t =>
              rw [hr] at hpe
              subst hpe
              rw [List.dropLast_append_of_ne_nil _ (by simp : (a :: t : FPath) ≠ [])]
                at hdrop
              exact slot_not_prefix_src hnt
                (hdrop ▸ List.prefix_append (tgt ++ [pathName c]) _)
          · have hqp : q = p := by
              rw [← hqe, moveSub_eq_self hcq]
            subst hqp
            have hmem : q ∈ c :: rs' := (hinv.childiff q).mp ⟨hq, hne, hdrop⟩
            rcases List.mem_cons.mp hmem with rfl | hmem2
            · exact absurd (List.prefix_refl q) hcq
            · exact hmem2
        · intro hp
          have hgp' := (hinv.childiff p).mpr (List.mem_cons_of_mem _ hp)
          refine ⟨?_, hgp'.2.1, hgp'.2.2⟩
          rw [HasPath_moveDir_stable
            (hstab_child p (hmem_rs' p hp) (fun h => hc_not_rs' (h ▸ hp)))]
          exact hgp'.1
      · rw [isFile_moveDir_stable
          (hstab src (child_not_prefix_src hc) (slot_not_prefix_src hnt))]
        exact hinv.nosrcfile

lemma merge_fold_inv {src tgt : FPath} {fs0 : FS} {fault : MoveFault}
    (hns : ¬ src <+: tgt) (hnt : ¬ tgt <+: src)
    (hfault : ∀ n, fault.copiedSize n = n) (hul : fault.unlinkFails = false)
    (hnodup : (fs0.childrenOf src).Nodup)
    (hdisj : ∀ x, x ∈ fs0.files.map Prod.fst → x ∉ fs0.dirs)
    (hsafe : ∀ c ∈ fs0.childrenOf src,
      isSafePath c = true ∧ isSafePath (tgt ++ [pathName c]) = true) :
    ∀ (rs done : List FPath) (g : FS) (acc : List Bool),
      MergeInv src tgt fs0 g done rs →
      ∃ g', rs.foldl (mergeChildStep false fault tgt) (g, acc) =
          (g', acc ++ List.replicate rs.length true) ∧
        MergeInv src tgt fs0 g' (done ++ rs) [] := by
  intro rs
  induction rs with
  | nil =>
    intro done g acc hinv
    exact ⟨g, by simp, (List.append_nil done).symm ▸ hinv⟩
  | cons c rs' ih =>
    intro done g acc hinv
    obtain ⟨g1, hstep, hinv1⟩ :=
      mergeChildStep_inv hns hnt hfault hul hnodup hdisj hsafe acc hinv
    rw [List.foldl_cons, hstep]
    obtain ⟨g', hfold, hinv'⟩ := ih (done ++ [c]) g1 (acc ++ [true]) hinv1
    refine ⟨g', ?_, ?_⟩
    · rw [hfold]
      simp [List.replicate_succ]
    · have he : (done ++ [c]) ++ rs' = done ++ (c :: rs') := by simp
      exact he ▸ hinv'

lemma mergeInv_init {fs : FS} {src tgt : FPath}
    (hns : ¬ src <+: tgt)
    (hfree : ∀ c ∈ fs.childrenOf src, fs.pathExists (tgt ++ [pathName c]) = false)
    (hnosrcfile : fs.isFile src = false) :
    (fs.mkdirP tgt).childrenOf src = fs.childrenOf src ∧
    ((fs.mkdirP tgt).files = fs.files ∧
      ∃ extra, (fs.mkdirP tgt).dirs = fs.dirs ++ extra ∧
        ∀ x ∈ extra, x ∈ ancestorsOf tgt) ∧
    MergeInv src tgt (fs.mkdirP tgt) (fs.mkdirP tgt) []
      ((fs.mkdirP tgt).childrenOf src) := by
  obtain ⟨extra, hdirs, hsub⟩ := foldl_insertDir_eq_append (ancestorsOf tgt) fs.dirs
  have hfs0dirs : (fs.mkdirP tgt).dirs = fs.dirs ++ extra := hdirs
  have hfs0files : (fs.mkdirP tgt).files = fs.files := rfl
  have hHP : ∀ w, ((fs.mkdirP tgt).HasPath w ↔ (fs.HasPath w ∨ w ∈ extra)) := by
    intro w
    unfold FS.HasPath
    rw [hfs0files, hfs0dirs, List.mem_append]
    tauto
  have hpredextra : ∀ a ∈ extra, ((!a.isEmpty && (a.dropLast == src)) = false) := by
    intro a ha
    by_contra hbad
    have hpred : (!a.isEmpty && (a.dropLast == src)) = true := by
      cases hx : (!a.isEmpty && (a.dropLast == src)) with
      | true => rfl
      | false => exact absurd hx hbad
    have hparts : a ≠ [] ∧ a.dropLast = src := by
      simpa [List.isEmpty_iff, beq_iff_eq] using hpred
    have hform : a = src ++ [pathName a] := by
      conv_lhs => rw [eq_dropLast_concat_name hparts.1]
      rw [hparts.2]
    have hsa : src <+: a := by
      rw [hform]
      exact List.prefix_append _ _
    exact hns (hsa.trans (prefixOfAncestor (hsub a ha)))
  have hchild : (fs.mkdirP tgt).childrenOf src = fs.childrenOf src := by
    unfold FS.childrenOf
    rw [hfs0files, hfs0dirs, ← List.append_assoc, List.filter_append]
    have hex : extra.filter (fun p => !p.isEmpty && (p.dropLast == src)) = [] := by
      rw [List.filter_eq_nil_iff]
      intro a ha
      rw [hpredextra a ha]
      simp
    rw [hex, List.append_nil]
  have hslot_not_extra : ∀ (x : String), tgt ++ [x] ∉ extra := by
    intro x hx
    have h1 := (prefixOfAncestor (hsub _ hx)).length_le
    simp only [List.length_append, List.length_singleton] at h1
    omega
  refine ⟨hchild, ⟨hfs0files, extra, hfs0dirs, hsub⟩, ?_⟩
  constructor
  · simp
  · intro c _
    rfl
  · intro c _
    rfl
  · intro c hcm
    rw [hchild] at hcm
    rw [hHP]
    rintro (hw | hw)
    · exact pathExists_false_iff_not_HasPath.mp (hfree c hcm) hw
    · exact hslot_not_extra _ hw
  · intro q hq
    exact mem_foldl_insertDir_of_mem _ _ hq
  · intro x hx
    cases hx
  · intro p
    exact mem_childrenOf_iff.symm
  · rw [show (fs.mkdirP tgt).isFile src = fs.isFile src from rfl]
    exact hnosrcfile

/-! ### Claim C6 -/

/-- C6: a merge execution reports success exactly when every individual
child move succeeded; and for every non-dry-run merge of an existing
source directory (with fault-free moves, sibling source/target, distinct
well-formed entries, safe paths and collision-free target slots), every
direct child is individually moved into the target directory (created if
absent): one detail per child is recorded, the result reports success,
the source directory no longer exists afterwards, and every former child
exists under the target. -/
theorem merge_moves_every_child :
    (∀ (dryRun : Bool) (fault : MoveFault) (fs : FS) (src tgt : FPath),
      fs.pathExists src = true → fs.isDir src = true →
      (executeMergeSuggestion dryRun fault fs src tgt).2.success =
        (executeMergeSuggestion dryRun fault fs src tgt).2.details.all id) ∧
    (∀ (fs : FS) (fault : MoveFault) (src tgt : FPath),
      fs.isDir src = true →
      fs.isFile src = false →
      ¬ src <+: tgt → ¬ tgt <+: src →
      (∀ n, fault.copiedSize n = n) → fault.unlinkFails = false →
      (fs.childrenOf src).Nodup →
      (∀ x ∈ fs.files.map Prod.fst, x ∉ fs.dirs) →
      (∀ a ∈ ancestorsOf tgt, a ∉ fs.files.map Prod.fst) →
      (∀ c ∈ fs.childrenOf src,
        isSafePath c = true ∧ isSafePath (tgt ++ [pathName c]) = true) →
      (∀ c ∈ fs.childrenOf src, fs.pathExists (tgt ++ [pathName c]) = false) →
      ((executeMergeSuggestion false fault fs src tgt).2.success = true ∧
        (executeMergeSuggestion false fault fs src tgt).2.details.length =
          (fs.childrenOf src).length ∧
        (executeMergeSuggestion false fault fs src tgt).1.pathExists src = false ∧
        ∀ c ∈ fs.childrenOf src,
          (executeMergeSuggestion false fault fs src tgt).1.pathExists
            (tgt ++ [pathName c]) = true)) := by
  constructor
  · intro dryRun fault fs src tgt hex hdir
    have hguard : (!(fs.pathExists src) || !(fs.isDir src)) = false := by
      rw [hex, hdir]
      rfl
    unfold executeMergeSuggestion
    rw [hguard]
    simp only [Bool.false_eq_true, if_false]
  · intro fs fault src tgt hdir hnsrcfile hns hnt hfault hul hnodup hdisj hancfile
      hsafe hfree
    obtain ⟨hchild, ⟨hfs0files, extra, hfs0dirs, hsub⟩, hinv⟩ :=
      mergeInv_init hns hfree hnsrcfile
    have hnodup0 : ((fs.mkdirP tgt).childrenOf src).Nodup := by
      rw [hchild]
      exact hnodup
    have hdisj0 : ∀ x, x ∈ (fs.mkdirP tgt).files.map Prod.fst →
        x ∉ (fs.mkdirP tgt).dirs := by
      intro x hx
      rw [hfs0files] at hx
      rw [hfs0dirs]
      intro hmem
      rcases List.mem_append.mp hmem with h1 | h2
      · exact hdisj x hx h1
      · exact hancfile x (hsub x h2) hx
    have hsafe0 : ∀ c ∈ (fs.mkdirP tgt).childrenOf src,
        isSafePath c = true ∧ isSafePath (tgt ++ [pathName c]) = true := by
      rw [hchild]
      exact hsafe
    obtain ⟨g', hfold, hinv'⟩ := merge_fold_inv hns hnt hfault hul hnodup0 hdisj0 hsafe0
      ((fs.mkdirP tgt).childrenOf src) [] (fs.mkdirP tgt) [] hinv
    have hex : fs.pathExists src = true := by
      simp [FS.pathExists, hdir]
    have hguard : (!(fs.pathExists src) || !(fs.isDir src)) = false := by
      rw [hex, hdir]
      rfl
    have hchildg' : g'.childrenOf src = [] := by
      rw [List.eq_nil_iff_forall_not_mem]
      intro p hp
      exact List.not_mem_nil p ((hinv'.childiff p).mp (mem_childrenOf_iff.mp hp))
    have hcompute : executeMergeSuggestion false fault fs src tgt =
        (g'.rmdir src,
          ⟨(List.replicate ((fs.mkdirP tgt).childrenOf src).length true).all id, "merge",
            List.replicate ((fs.mkdirP tgt).childrenOf src).length true, none⟩) := by
      unfold executeMergeSuggestion
      rw [hguard]
      simp only [Bool.false_eq_true, if_false]
      simp only [hfold, List.nil_append, hchildg', List.isEmpty_nil, Bool.not_false,
        Bool.true_and, if_true]
    rw [hcompute]
    refine ⟨?_, ?_, ?_, ?_⟩
    · simp [List.all_eq_true, List.mem_replicate]
    · simp [hchild]
    · exact pathExists_false_iff_not_HasPath.mpr
        (not_HasPath_rmdir_self hinv'.nosrcfile)
    · intro c hcm
      have hcm0 : c ∈ [] ++ (fs.mkdirP tgt).childrenOf src := by
        rw [List.nil_append, hchild]
        exact hcm
      have hplaced := hinv'.placed c hcm0
      rw [pathExists_iff_HasPath]
      exact (HasPath_rmdir_ne (slot_ne_src hnt)).mpr hplaced

def c6fs : FS :=
  ⟨[(["vault", "proj", "a.md"], 3), (["vault", "proj", "b.md"], 4),
      (["vault", "proj", "c.md"], 5), (["vault", "proj", "sub", "x.md"], 6)],
    [["vault"], ["vault", "proj"], ["vault", "proj", "sub"]]⟩

def c6src : FPath := ["vault", "proj"]

def c6tgt : FPath := ["vault", "archive"]

/-- Witness for C6: a source directory with 3 files and 1 subdirectory
merges successfully — the source disappears and all 4 items land under
the target. -/
theorem merge_moves_every_child_witness :
    (c6fs.isDir c6src = true ∧ (c6fs.childrenOf c6src).length = 4) ∧
    ((executeMergeSuggestion false noFault c6fs c6src c6tgt).2.success = true ∧
      (executeMergeSuggestion false noFault c6fs c6src c6tgt).2.details.length =
        (c6fs.childrenOf c6src).length ∧
      (executeMergeSuggestion false noFault c6fs c6src c6tgt).1.pathExists c6src = false ∧
      ∀ c ∈ c6fs.childrenOf c6src,
        (executeMergeSuggestion false noFault c6fs c6src c6tgt).1.pathExists
          (c6tgt ++ [pathName c]) = true) :=
  ⟨⟨by decide, by decide⟩,
    merge_moves_every_child.2 c6fs noFault c6src c6tgt (by decide) (by decide)
      (by decide) (by decide) (fun _ => rfl) rfl (by decide) (by decide) (by decide)
      (by decide) (by decide)⟩

end NoteParaSweep
